import Mathlib

/-!
Verification of the Harkaam agent framework core.

This file gives a shallow embedding, in Lean 4, of the core components of the
Harkaam repository — the dependency-graph workflow scheduler
(`harkaam/system/workflow.py`), the response parsers (`harkaam/core/parser.py`),
the completion checks and action execution of the cycle controllers
(`harkaam/agents/*.py`), and the base agent entry point
(`harkaam/agents/base.py`) — and proves or refutes the specified properties of
those components.

Conventions of the embedding:
* Python dicts with string keys are modelled as association lists
  (`List (String × V)`) with dict update semantics (`aset` overwrites in
  place, otherwise appends, preserving insertion order).
* Python exceptions are modelled with `Except String`.
* Opaque collaborators (LLM `generate`, tool execution, `json` encode/decode)
  are parameters of the embedded functions.
* The recursive depth-first traversals of `workflow.py` are embedded with an
  explicit fuel argument bounding the recursion depth; fuel sufficiency for
  every valid graph is proved (`visitFuel_total`), so the fuel is invisible in
  the stated theorems.
-/

namespace Harkaam

/-! ## Python-style string primitives -/

/-- Python `\s` whitespace class (ASCII range, as used by `str.strip` and
regex `\s`). -/
def pyIsWS (c : Char) : Bool :=
  c == ' ' || c == '\t' || c == '\n' || c == '\r' || c == '\x0b' || c == '\x0c'

/-- `str.strip()` on a character list. -/
def pyStripChars (l : List Char) : List Char :=
  ((l.dropWhile pyIsWS).reverse.dropWhile pyIsWS).reverse

/-- Python `str.strip()`. -/
def pyStrip (s : String) : String := ⟨pyStripChars s.data⟩

/-- Python `str.lower()` (ASCII case folding). -/
def pyLower (s : String) : String := ⟨s.data.map Char.toLower⟩

/-! ## Association lists: Python dict with string keys -/

/-- Dict assignment `m[k] = v`: overwrite in place if the key exists,
otherwise append (insertion order preserved). -/
def aset {V : Type} (m : List (String × V)) (k : String) (v : V) :
    List (String × V) :=
  match m with
  | [] => [(k, v)]
  | (k', v') :: rest =>
      if k' = k then (k, v) :: rest else (k', v') :: aset rest k v

/-- Dict membership / item access `m.get(k)`. -/
def alookup {V : Type} (m : List (String × V)) (k : String) : Option V :=
  match m with
  | [] => none
  | (k', v') :: rest => if k' = k then some v' else alookup rest k

/-- Python `{**m1, **m2}`: start from `m1`, assign every binding of `m2`. -/
def amerge {V : Type} (m1 m2 : List (String × V)) : List (String × V) :=
  m2.foldl (fun acc kv => aset acc kv.1 kv.2) m1

/-! ## Workflow data model (`harkaam/system/workflow.py`) -/

/-- `WorkflowNode`: a node of the dependency graph.  The pydantic callables
`condition`, `transform_input`, `transform_output` are optional functions. -/
structure WNode (V : Type) where
  id : String
  agent_id : String
  name : String
  description : String
  dependencies : List String
  condition : Option (List (String × V) → Bool)
  transform_input : Option (List (String × V) → List (String × V))
  transform_output : Option (V → V)

/-- An agent as seen by the workflow: `agent.run(task, context=node_input)`.
Its result type `V` is opaque to the scheduler. -/
def WAgent (V : Type) : Type := String → List (String × V) → V

/-- `Workflow`: node dict (insertion order) plus agent dict. -/
structure Workflow (V : Type) where
  name : String
  description : String
  nodes : List (WNode V)
  agents : List (String × WAgent V)

/-- `self.nodes[nid]` lookup (dict keyed by node id). -/
def findNode {V : Type} (nodes : List (WNode V)) (nid : String) :
    Option (WNode V) :=
  nodes.find? (fun n => n.id == nid)

/-- The key set of the node dict. -/
def nodeIds {V : Type} (nodes : List (WNode V)) : List String :=
  nodes.map (·.id)

/-- One node `a` depends (directly) on `b`. -/
def dependsOn {V : Type} (nodes : List (WNode V)) (a b : String) : Prop :=
  ∃ n, findNode nodes a = some n ∧ b ∈ n.dependencies

/-- The dependency relation has a cycle: some node transitively depends on
itself. -/
def hasCycleRel {V : Type} (nodes : List (WNode V)) : Prop :=
  ∃ a, Relation.TransGen (dependsOn nodes) a a

/-- Every dependency id referenced by a node exists in the graph. -/
def wellFormedDeps {V : Type} (nodes : List (WNode V)) : Prop :=
  ∀ n ∈ nodes, ∀ d ∈ n.dependencies, d ∈ nodeIds nodes

/-- There is a node with a dependency id absent from the node set. -/
def danglingDep {V : Type} (nodes : List (WNode V)) : Prop :=
  ∃ n ∈ nodes, ∃ d ∈ n.dependencies, d ∉ nodeIds nodes

/-- A list of node ids is topologically sorted: every node's dependencies
appear strictly before it. -/
def depsEarlier {V : Type} (nodes : List (WNode V)) (l : List String) : Prop :=
  ∀ l1 x l2, l = l1 ++ x :: l2 →
    ∀ n, findNode nodes x = some n → ∀ d ∈ n.dependencies, d ∈ l1

/-! ## `Workflow._validate` -/

/-- First loop of `_validate`: every node's agent id must be registered. -/
def checkAgents {V : Type} (ags : List (String × WAgent V)) :
    List (WNode V) → Except String Unit
  | [] => .ok ()
  | n :: rest =>
      if (alookup ags n.agent_id).isSome then checkAgents ags rest
      else .error ("Node " ++ n.name ++ " references non-existent agent " ++ n.agent_id)

/-- Inner loop of the dependency-existence check of `_validate`. -/
def checkNodeDeps {V : Type} (nodes : List (WNode V)) (nm : String) :
    List String → Except String Unit
  | [] => .ok ()
  | d :: ds =>
      if (findNode nodes d).isSome then checkNodeDeps nodes nm ds
      else .error ("Node " ++ nm ++ " depends on non-existent node " ++ d)

/-- Second loop of `_validate`: every dependency id must exist. -/
def checkDeps {V : Type} (nodes : List (WNode V)) :
    List (WNode V) → Except String Unit
  | [] => .ok ()
  | n :: rest => do
      checkNodeDeps nodes n.name n.dependencies
      checkDeps nodes rest

/-- One depth level of the `has_cycle` closure of `_validate`; processes a
worklist of sibling node ids at the current depth.  `hcDeps` is the traversal
one level deeper (one unit of fuel less).  State: `(temp, visited)`, both
threaded exactly as the Python sets are.  Returns `true` when a node already
in `temp` is reached. -/
def hasCycleLevel {V : Type} (nodes : List (WNode V))
    (hcDeps : List String × List String → List String →
      Except String (Bool × List String × List String)) :
    List String × List String → List String →
      Except String (Bool × List String × List String)
  | (temp, visited), [] => .ok (false, temp, visited)
  | (temp, visited), nid :: rest =>
      if nid ∈ temp then .ok (true, temp, visited)
      else if nid ∈ visited then hasCycleLevel nodes hcDeps (temp, visited) rest
      else
        match findNode nodes nid with
        | none => .error "KeyError"
        | some n => do
            let (found, temp', visited') ← hcDeps (nid :: temp, visited) n.dependencies
            if found then .ok (true, temp', visited')
            else hasCycleLevel nodes hcDeps (temp'.erase nid, nid :: visited') rest

/-- Fuelled `has_cycle` over a worklist of node ids. -/
def hasCycleFuel {V : Type} (nodes : List (WNode V)) :
    Nat → List String × List String → List String →
      Except String (Bool × List String × List String)
  | 0, tv, todo => if todo.isEmpty then .ok (false, tv.1, tv.2) else .error "fuel exhausted"
  | fuel + 1, tv, todo => hasCycleLevel nodes (hasCycleFuel nodes fuel) tv todo

/-- Third phase of `_validate`: run `has_cycle` from every node, sharing the
`visited` set across calls, raising on the first cycle found. -/
def checkCycles {V : Type} (nodes : List (WNode V)) :
    List String × List String → List String → Except String Unit
  | _, [] => .ok ()
  | tv, nid :: rest => do
      let (found, temp', visited') ← hasCycleFuel nodes (nodes.length + 1) tv [nid]
      if found then .error "Circular dependency detected in workflow"
      else checkCycles nodes (temp', visited') rest

/-- `Workflow._validate`. -/
def validate {V : Type} (w : Workflow V) : Except String Unit := do
  checkAgents w.agents w.nodes
  checkDeps w.nodes w.nodes
  checkCycles w.nodes ([], []) (nodeIds w.nodes)

/-! ## `Workflow._get_execution_order` -/

/-- State of the topological-sort traversal: the `temp` and `visited` sets
and the `result` list of `_get_execution_order`. -/
structure OState where
  temp : List String
  visited : List String
  result : List String

/-- One depth level of the `visit` closure of `_get_execution_order`;
processes a worklist of sibling node ids.  `vd` is the traversal one level
deeper.  A node already in `temp` raises `"Circular dependency detected"`. -/
def visitLevel {V : Type} (nodes : List (WNode V))
    (vd : OState → List String → Except String OState) :
    OState → List String → Except String OState
  | s, [] => .ok s
  | s, nid :: rest =>
      if nid ∈ s.temp then .error "Circular dependency detected"
      else if nid ∈ s.visited then visitLevel nodes vd s rest
      else
        match findNode nodes nid with
        | none => .error "KeyError"
        | some n => do
            let s1 ← vd ⟨nid :: s.temp, s.visited, s.result⟩ n.dependencies
            visitLevel nodes vd
              ⟨s1.temp.erase nid, nid :: s1.visited, s1.result ++ [nid]⟩ rest

/-- Fuelled depth-first traversal of `_get_execution_order`. -/
def visitFuel {V : Type} (nodes : List (WNode V)) :
    Nat → OState → List String → Except String OState
  | 0, s, todo => if todo.isEmpty then .ok s else .error "fuel exhausted"
  | fuel + 1, s, todo => visitLevel nodes (visitFuel nodes fuel) s todo

/-- `Workflow._get_execution_order`: visit every node, collect `result`. -/
def getExecutionOrder {V : Type} (nodes : List (WNode V)) :
    Except String (List String) :=
  (visitFuel nodes (nodes.length + 1) ⟨[], [], []⟩ (nodeIds nodes)).map (·.result)

/-! ## `Workflow.execute` -/

/-- The dependency-merging loop of `execute`: starting from a copy of
`input_data`, add `node_input[nodes[dep].name] = results[dep]` for every
dependency already present in `results`. -/
def collectInput {V : Type} (nodes : List (WNode V)) (results : List (String × V)) :
    List (String × V) → List String → Except String (List (String × V))
  | acc, [] => .ok acc
  | acc, d :: ds =>
      match alookup results d with
      | some v =>
          match findNode nodes d with
          | some dn => collectInput nodes results (aset acc dn.name v) ds
          | none => .error "KeyError"
      | none => collectInput nodes results acc ds

/-- The task description string built by `execute` (the empty-after-strip
fallback of the source is kept even though `name ++ ": " ++ description`
always survives `strip`). -/
def taskDescription {V : Type} (node : WNode V) : String :=
  let td := node.name ++ ": " ++ node.description
  if pyStrip td = "" then "Execute task for node " ++ node.name else td

/-- The body of the per-node loop of `execute`: guard check, input
collection, transforms, agent run, result storage. -/
def runNode {V : Type} (w : Workflow V) (input : List (String × V))
    (results : List (String × V)) (nid : String) :
    Except String (List (String × V)) :=
  match findNode w.nodes nid with
  | none => .error "KeyError"
  | some node =>
      let skip :=
        match node.condition with
        | some c => !(c (amerge input results))
        | none => false
      if skip then .ok results
      else do
        let ni ← collectInput w.nodes results input node.dependencies
        let ni := match node.transform_input with
          | some f => f ni
          | none => ni
        match alookup w.agents node.agent_id with
        | none => .error "KeyError"
        | some agent =>
            let res := agent (taskDescription node) ni
            let out := match node.transform_output with
              | some f => f res
              | none => res
            .ok (aset results nid out)

/-- `Workflow.execute`: validate, compute the execution order, then run the
nodes in order starting from an empty results dict. -/
def Workflow.execute {V : Type} (w : Workflow V) (input : List (String × V)) :
    Except String (List (String × V)) := do
  validate w
  let order ← getExecutionOrder w.nodes
  order.foldlM (runNode w input) []

/-! ## Specification predicates for the traversal proofs -/

/-- Invariant of `_get_execution_order`: the `visited` set and the `result`
list hold the same ids. -/
def visResSync (s : OState) : Prop := ∀ x, x ∈ s.visited ↔ x ∈ s.result

/-- Postcondition bundle of one successful traversal call on worklist
`todo` taking state `s` to `s'`. -/
def VPost {V : Type} (nodes : List (WNode V)) (s : OState) (todo : List String)
    (s' : OState) : Prop :=
  s'.temp = s.temp
  ∧ (∀ x, x ∈ s.visited → x ∈ s'.visited)
  ∧ (∀ x, x ∈ todo → x ∈ s'.visited)
  ∧ (∀ x, x ∈ s'.visited → x ∈ s.visited ∨ (x ∉ s.temp ∧ x ∈ nodeIds nodes))
  ∧ (visResSync s → visResSync s')
  ∧ (visResSync s → s.result.Nodup → s'.result.Nodup)
  ∧ (visResSync s → depsEarlier nodes s.result → depsEarlier nodes s'.result)

/-- Precondition bundle under which the fuelled traversal cannot fail when
the graph is well-formed and acyclic: the worklist and `temp` stay inside the
node set, `temp` is a chain of dependency steps ending at the node whose
dependencies are currently on the worklist, and the fuel dominates the
remaining possible depth. -/
def BPre {V : Type} (nodes : List (WNode V)) (fuel : Nat) (s : OState)
    (todo : List String) : Prop :=
  (∀ x ∈ todo, x ∈ nodeIds nodes)
  ∧ (∀ t, s.temp.head? = some t → ∀ x ∈ todo, dependsOn nodes t x)
  ∧ List.Chain' (fun a b => dependsOn nodes b a) s.temp
  ∧ s.temp.Nodup
  ∧ (∀ x ∈ s.temp, x ∈ nodeIds nodes)
  ∧ (nodeIds nodes).length + 1 ≤ fuel + s.temp.length

/-! ## `Workflow.add_node`

`add_node` generates a fresh uuid4 for the node id; the embedding takes the
generated id as the `newId` argument (uuids are opaque random strings). -/

/-- Dict insertion for the node dict keyed by `id`. -/
def insertNode {V : Type} : List (WNode V) → WNode V → List (WNode V)
  | [], n => [n]
  | m :: rest, n => if m.id = n.id then n :: rest else m :: insertNode rest n

/-- `Workflow.add_node`: registers the agent if absent, stores the node
(no validation of dependencies happens here), returns the new node id. -/
def Workflow.addNode {V : Type} (w : Workflow V) (agentId : String)
    (agent : WAgent V) (newId name description : String)
    (dependencies : List String)
    (condition : Option (List (String × V) → Bool))
    (transform_input : Option (List (String × V) → List (String × V)))
    (transform_output : Option (V → V)) : Workflow V × String :=
  let w :=
    if (alookup w.agents agentId).isSome then w
    else { w with agents := aset w.agents agentId agent }
  let node : WNode V :=
    { id := newId, agent_id := agentId, name := name,
      description := description, dependencies := dependencies,
      condition := condition, transform_input := transform_input,
      transform_output := transform_output }
  ({ w with nodes := insertNode w.nodes node }, node.id)

/-! ## Regex scanning primitives (`harkaam/core/parser.py`)

The parser module uses a fixed family of regex shapes:
`LABEL\s*(.*?)(?:TERM1|TERM2|...|$)` with `re.DOTALL`, used with `re.search`
(first match) or `re.finditer` (successive non-overlapping matches).  The
embedding implements exactly these shapes: find the leftmost occurrence of
the label, optionally skip the whitespace run, then capture lazily until the
first position where one of the terminator patterns matches (the terminator
being consumed), or to the end of input.  The end anchor `$` is modelled as
end of input; in Python `$` may also match just before a trailing newline,
which changes captures only by a trailing newline that the subsequent
`.strip()` removes, and never changes whether a label matches. -/

/-- A matcher: given a character suffix, the number of characters consumed
when it matches at the front. -/
def Pat : Type := List Char → Option Nat

/-- Literal-string matcher. -/
def lit (s : String) : Pat := fun l =>
  if s.data.isPrefixOf l then some s.data.length else none

/-- Sequencing of matchers. -/
def seqPat (p q : Pat) : Pat := fun l =>
  match p l with
  | some n =>
      match q (l.drop n) with
      | some m => some (n + m)
      | none => none
  | none => none

/-- `\d+` (greedy; always followed by a non-digit in the source patterns, so
greediness is exact). -/
def digitsPat : Pat := fun l =>
  let d := l.takeWhile Char.isDigit
  if d.isEmpty then none else some d.length

/-- `STEM(?:s)?:` — used by the OODA stage fallback patterns. -/
def pluralLabel (stem : String) : Pat := fun l =>
  if (stem.data ++ ['s', ':']).isPrefixOf l then some (stem.data.length + 2)
  else if (stem.data ++ [':']).isPrefixOf l then some (stem.data.length + 1)
  else none

/-- First matcher of a list that matches at the front (regex alternation
order). -/
def firstTerm (terms : List Pat) (l : List Char) : Option Nat :=
  match terms with
  | [] => none
  | t :: ts =>
      match t l with
      | some n => some n
      | none => firstTerm ts l

/-- Leftmost match of `p`: `(index, consumed)`. -/
def findPat (p : Pat) : List Char → Option (Nat × Nat)
  | [] =>
      match p [] with
      | some n => some (0, n)
      | none => none
  | c :: rest =>
      match p (c :: rest) with
      | some n => some (0, n)
      | none =>
          match findPat p rest with
          | some (i, n) => some (i + 1, n)
          | none => none

/-- Lazy capture `(.*?)(?:TERMS|$)`: scan forward until the first position
where some terminator matches (terminator consumed), or end of input.
Returns `(capture, rest after match)`. -/
def scanUntil (terms : List Pat) : List Char → List Char × List Char
  | [] => ([], [])
  | c :: rest =>
      match firstTerm terms (c :: rest) with
      | some n => ([], (c :: rest).drop n)
      | none =>
          let (cap, rest') := scanUntil terms rest
          (c :: cap, rest')

/-- One full match of `LABEL[\s*](.*?)(?:TERMS|$)` starting from the leftmost
label occurrence: the stripped capture and the remaining input after the
match. -/
def matchLabel (label : Pat) (skipWS : Bool) (terms : List Pat)
    (l : List Char) : Option (String × List Char) :=
  match findPat label l with
  | none => none
  | some (i, n) =>
      let afterLabel := (l.drop i).drop n
      let body := if skipWS then afterLabel.dropWhile pyIsWS else afterLabel
      let (cap, rest) := scanUntil terms body
      some (⟨pyStripChars cap⟩, rest)

/-- `re.finditer` over the label pattern (fuelled; each match consumes at
least the label, so the input length bounds the number of matches). -/
def findAllLabelFuel (label : Pat) (skipWS : Bool) (terms : List Pat) :
    Nat → List Char → List String
  | 0, _ => []
  | fuel + 1, l =>
      match matchLabel label skipWS terms l with
      | none => []
      | some (cap, rest) => cap :: findAllLabelFuel label skipWS terms fuel rest

/-- All stripped captures of `LABEL[\s*](.*?)(?:TERMS|$)` over a string. -/
def findAllLabel (label : Pat) (skipWS : Bool) (terms : List Pat)
    (s : String) : List String :=
  findAllLabelFuel label skipWS terms (s.data.length + 1) s.data

/-- `re.search` + `group(1).strip()`, or `""` when there is no match — the
`match.group(1).strip() if match else ""` idiom of the source. -/
def searchLabel (label : Pat) (skipWS : Bool) (terms : List Pat)
    (s : String) : String :=
  match matchLabel label skipWS terms s.data with
  | none => ""
  | some (cap, _) => cap

/-! ## `ReActParser.parse` -/

/-- One thought/action/observation cycle (`current_cycle` dict). -/
structure RCycle where
  thought : Option String := none
  action : Option String := none
  observation : Option String := none

/-- Result of `ReActParser.parse`. -/
structure ReActParsed where
  cycles : List RCycle
  final_answer : String
  raw_response : String

/-- The thought loop of `ReActParser.parse`: each nonempty thought starts a
fresh `current_cycle`. -/
def reactThoughtStep (cur : RCycle) (t : String) : RCycle :=
  if t = "" then cur else { thought := some t }

/-- The action loop: a nonempty action is attached only when a thought is
already present. -/
def reactActionStep (cur : RCycle) (a : String) : RCycle :=
  if a ≠ "" ∧ cur.thought.isSome then { cur with action := some a } else cur

/-- The observation loop: a nonempty observation completes a cycle when both
thought and action are present; the completed cycle is appended and the
current cycle reset. -/
def reactObsStep (st : List RCycle × RCycle) (o : String) : List RCycle × RCycle :=
  let (cys, cur) := st
  if o ≠ "" ∧ cur.thought.isSome ∧ cur.action.isSome then
    (cys ++ [{ cur with observation := some o }], {})
  else st

/-- `ReActParser.parse`. -/
def reactParse (text : String) : ReActParsed :=
  let final_answer := searchLabel (lit "Final Answer:") true [lit "Thought:"] text
  let thoughts := findAllLabel (lit "Thought:") true
    [lit "Action:", lit "Observation:", lit "Final Answer:"] text
  let actions := findAllLabel (lit "Action:") true
    [lit "Observation:", lit "Thought:", lit "Final Answer:"] text
  let obss := findAllLabel (lit "Observation:") true
    [lit "Thought:", lit "Action:", lit "Final Answer:"] text
  let cur1 := thoughts.foldl reactThoughtStep {}
  let cur2 := actions.foldl reactActionStep cur1
  let st := obss.foldl reactObsStep ([], cur2)
  let cycles := if st.2.thought.isSome then st.1 ++ [st.2] else st.1
  { cycles := cycles, final_answer := final_answer, raw_response := text }

/-! ## `OODAParser.parse` -/

/-- One observe/orient/decide/act loop (`current_loop` dict). -/
structure OLoop where
  observation : Option String := none
  orientation : Option String := none
  decision : Option String := none
  action : Option String := none

/-- Result of `OODAParser.parse`. -/
structure OODAParsed where
  loops : List OLoop
  final_answer : String
  raw_response : String

/-- `OODAParser.parse`. -/
def oodaParse (text : String) : OODAParsed :=
  let final_answer := searchLabel (lit "Final Answer:") true [lit "Observation:"] text
  let obss := findAllLabel (lit "Observation:") true
    [lit "Orientation:", lit "Decision:", lit "Action:", lit "Final Answer:"] text
  let orients := findAllLabel (lit "Orientation:") true
    [lit "Decision:", lit "Action:", lit "Observation:", lit "Final Answer:"] text
  let decs := findAllLabel (lit "Decision:") true
    [lit "Action:", lit "Observation:", lit "Orientation:", lit "Final Answer:"] text
  let acts := findAllLabel (lit "Action:") true
    [lit "Observation:", lit "Orientation:", lit "Decision:", lit "Final Answer:"] text
  let c1 := obss.foldl
    (fun cur o => if o = "" then cur else { observation := some o }) {}
  let c2 := orients.foldl
    (fun cur o => if o ≠ "" ∧ cur.observation.isSome
      then { cur with orientation := some o } else cur) c1
  let c3 := decs.foldl
    (fun cur d => if d ≠ "" ∧ cur.observation.isSome ∧ cur.orientation.isSome
      then { cur with decision := some d } else cur) c2
  let st := acts.foldl
    (fun (st : List OLoop × OLoop) a =>
      let (ls, cur) := st
      if a ≠ "" ∧ cur.observation.isSome ∧ cur.orientation.isSome ∧ cur.decision.isSome
      then (ls ++ [{ cur with action := some a }], ({} : OLoop))
      else st) ([], c3)
  { loops := st.1, final_answer := final_answer, raw_response := text }

/-! ## `BDIParser.parse` -/

/-- One beliefs/desires/intentions/execution cycle. -/
structure BCycle where
  beliefs : Option String := none
  desires : Option String := none
  intentions : Option String := none
  execution : Option String := none

/-- Result of `BDIParser.parse`. -/
structure BDIParsed where
  cycles : List BCycle
  final_answer : String
  raw_response : String

/-- `BDIParser.parse`. -/
def bdiParse (text : String) : BDIParsed :=
  let final_answer := searchLabel (lit "Final Answer:") true [lit "Beliefs:"] text
  let beliefs := findAllLabel (lit "Beliefs:") true
    [lit "Desires:", lit "Intentions:", lit "Execution:", lit "Final Answer:"] text
  let desires := findAllLabel (lit "Desires:") true
    [lit "Intentions:", lit "Execution:", lit "Beliefs:", lit "Final Answer:"] text
  let intents := findAllLabel (lit "Intentions:") true
    [lit "Execution:", lit "Beliefs:", lit "Desires:", lit "Final Answer:"] text
  let execs := findAllLabel (lit "Execution:") true
    [lit "Beliefs:", lit "Desires:", lit "Intentions:", lit "Final Answer:"] text
  let c1 := beliefs.foldl
    (fun cur b => if b = "" then cur else { beliefs := some b }) {}
  let c2 := desires.foldl
    (fun cur d => if d ≠ "" ∧ cur.beliefs.isSome
      then { cur with desires := some d } else cur) c1
  let c3 := intents.foldl
    (fun cur i => if i ≠ "" ∧ cur.beliefs.isSome ∧ cur.desires.isSome
      then { cur with intentions := some i } else cur) c2
  let st := execs.foldl
    (fun (st : List BCycle × BCycle) e =>
      let (cs, cur) := st
      if e ≠ "" ∧ cur.beliefs.isSome ∧ cur.desires.isSome ∧ cur.intentions.isSome
      then (cs ++ [{ cur with execution := some e }], ({} : BCycle))
      else st) ([], c3)
  { cycles := st.1, final_answer := final_answer, raw_response := text }

/-! ## `LATParser.parse` -/

/-- One option/evaluation branch. -/
structure LATBranch where
  option : String
  evaluation : String

/-- One problem/branches/selection tree node. -/
structure LATNode where
  problem : Option String := none
  branches : Option (List LATBranch) := none
  selection : Option String := none

/-- Result of `LATParser.parse`. -/
structure LATParsed where
  nodes : List LATNode
  final_answer : String
  raw_response : String

/-- The `- Option \d+:` pattern. -/
def optionLabel : Pat := seqPat (lit "- Option ") (seqPat digitsPat (lit ":"))

/-- `LATParser.parse`. -/
def latParse (text : String) : LATParsed :=
  let final_answer := searchLabel (lit "Final Answer:") true [lit "Problem:"] text
  let problems := findAllLabel (lit "Problem:") true
    [lit "Branches:", lit "Selection:", lit "Final Answer:"] text
  let branchTexts := findAllLabel (lit "Branches:") false
    [lit "Selection:", lit "Problem:", lit "Final Answer:"] text
  let selections := findAllLabel (lit "Selection:") true
    [lit "Problem:", lit "Branches:", lit "Final Answer:"] text
  let c1 := problems.foldl
    (fun cur p => if p = "" then cur else { problem := some p }) {}
  let c2 := branchTexts.foldl
    (fun cur bt =>
      let options := findAllLabel optionLabel true [lit "  Evaluation:"] bt
      let evals := findAllLabel (lit "  Evaluation:") true [optionLabel] bt
      let branches := List.zipWith (fun o e => LATBranch.mk o e) options evals
      if branches.isEmpty = false ∧ cur.problem.isSome
      then { cur with branches := some branches } else cur) c1
  let st := selections.foldl
    (fun (st : List LATNode × LATNode) sel =>
      let (ns, cur) := st
      if sel ≠ "" ∧ cur.problem.isSome ∧ cur.branches.isSome
      then (ns ++ [{ cur with selection := some sel }], ({} : LATNode))
      else st) ([], c2)
  { nodes := st.1, final_answer := final_answer, raw_response := text }

/-! ## `RAISEParser.parse` -/

/-- Result of `RAISEParser.parse`. -/
structure RAISEParsed where
  task_analysis : String
  relevant_examples : String
  scratch_pad_raw : String
  scratch_pad_steps : List String
  final_answer : String
  raw_response : String

/-- The `  Step \d+:` pattern. -/
def stepLabel : Pat := seqPat (lit "  Step ") (seqPat digitsPat (lit ":"))

/-- `RAISEParser.parse`. -/
def raiseParse (text : String) : RAISEParsed :=
  let task_analysis := searchLabel (lit "Task Analysis:") true
    [lit "Relevant Examples:", lit "Scratch Pad:", lit "Final Answer:"] text
  let examples := searchLabel (lit "Relevant Examples:") true
    [lit "Scratch Pad:", lit "Task Analysis:", lit "Final Answer:"] text
  let scratch_pad := searchLabel (lit "Scratch Pad:") false
    [lit "Final Answer:", lit "Task Analysis:", lit "Relevant Examples:"] text
  let final_answer := searchLabel (lit "Final Answer:") true
    [lit "Task Analysis:", lit "Relevant Examples:", lit "Scratch Pad:"] text
  let steps := if scratch_pad = "" then []
    else findAllLabel stepLabel true [stepLabel] scratch_pad
  { task_analysis := task_analysis, relevant_examples := examples,
    scratch_pad_raw := scratch_pad, scratch_pad_steps := steps,
    final_answer := final_answer, raw_response := text }

/-! ## `ReWOOParser.parse` -/

/-- Result of `ReWOOParser.parse`. -/
structure ReWOOParsed where
  problem_analysis : String
  reasoning_raw : String
  reasoning_steps : List String
  conclusion : String
  final_answer : String
  raw_response : String

/-- `ReWOOParser.parse`. -/
def rewooParse (text : String) : ReWOOParsed :=
  let analysis := searchLabel (lit "Problem Analysis:") true
    [lit "Reasoning:", lit "Conclusion:", lit "Final Answer:"] text
  let reasoning := searchLabel (lit "Reasoning:") false
    [lit "Conclusion:", lit "Problem Analysis:", lit "Final Answer:"] text
  let conclusion := searchLabel (lit "Conclusion:") true
    [lit "Final Answer:", lit "Problem Analysis:", lit "Reasoning:"] text
  let final_answer := searchLabel (lit "Final Answer:") true
    [lit "Problem Analysis:", lit "Reasoning:", lit "Conclusion:"] text
  let steps := if reasoning = "" then []
    else findAllLabel stepLabel true [stepLabel] reasoning
  { problem_analysis := analysis, reasoning_raw := reasoning,
    reasoning_steps := steps, conclusion := conclusion,
    final_answer := final_answer, raw_response := text }

/-! ## `create_parser` -/

/-- The architecture-tagged parse result. -/
inductive Parsed where
  | react : ReActParsed → Parsed
  | ooda : OODAParsed → Parsed
  | bdi : BDIParsed → Parsed
  | lat : LATParsed → Parsed
  | raiseP : RAISEParsed → Parsed
  | rewoo : ReWOOParsed → Parsed

/-- The raw-text field of any parse result. -/
def Parsed.rawResponse : Parsed → String
  | .react p => p.raw_response
  | .ooda p => p.raw_response
  | .bdi p => p.raw_response
  | .lat p => p.raw_response
  | .raiseP p => p.raw_response
  | .rewoo p => p.raw_response

/-- `create_parser`: case-insensitive architecture lookup; `none` models the
`ValueError` raised for an unknown architecture. -/
def createParser (architecture : String) : Option (String → Parsed) :=
  let a := pyLower architecture
  if a = "react" then some (fun t => .react (reactParse t))
  else if a = "ooda" then some (fun t => .ooda (oodaParse t))
  else if a = "bdi" then some (fun t => .bdi (bdiParse t))
  else if a = "lat" then some (fun t => .lat (latParse t))
  else if a = "raise" then some (fun t => .raiseP (raiseParse t))
  else if a = "rewoo" then some (fun t => .rewoo (rewooParse t))
  else none

/-- The text of the C4 counterexample: an `Action:` label with no preceding
`Thought:` label (the only `Thought:` occurs later, at index 10). -/
def c4text : String := "Action: X\nThought: later"

/-! ## Completion checks (`OODAAgent._check_completion`,
`BDIAgent._check_completion`)

Both agents decide completion from the termination-stage response with the
same code: `"yes" in response.lower()[:100] or "complete" in
response.lower()[:100]`, then extract the text after a case-insensitive
`final answer:?` marker from the stripped response when complete. -/

/-- Python `sub in s` substring test. -/
def pyContains (sub s : String) : Bool := (findPat (lit sub) s.data).isSome

/-- `response.lower()[:100]`. -/
def lowerHead100 (s : String) : String := ⟨(pyLower s).data.take 100⟩

/-- The completion signal shared by the OODA/BDI/RAISE termination stages. -/
def completionSignal (response : String) : Bool :=
  pyContains "yes" (lowerHead100 response) || pyContains "complete" (lowerHead100 response)

/-- `re.search(r"final answer:?(.*)", s, IGNORECASE | DOTALL)` followed by
`group(1).strip()`: the stripped text after the first case-insensitive
`final answer` marker and its optional colon, or `none` when the marker is
absent. -/
def afterFinalAnswerMarker (s : String) : Option String :=
  match findPat (lit "final answer") (pyLower s).data with
  | none => none
  | some (i, n) =>
      let rest := (s.data.drop i).drop n
      let rest := match rest with
        | ':' :: r => r
        | r => r
      some ⟨pyStripChars rest⟩

/-- The response-processing core of `OODAAgent._check_completion`
(ooda.py lines 310–320): the completion flag and the final answer derived
from the termination-stage response. -/
def oodaCheckCompletion (response : String) : Bool × String :=
  let is_complete := completionSignal response
  let final_answer := pyStrip response
  if is_complete then
    match afterFinalAnswerMarker final_answer with
    | some rest => (is_complete, rest)
    | none => (is_complete, final_answer)
  else (is_complete, final_answer)

/-- The response-processing core of `BDIAgent._check_completion`
(bdi.py lines 307–316); textually the same logic as the OODA version. -/
def bdiCheckCompletion (response : String) : Bool × String :=
  let is_complete := completionSignal response
  let final_answer := pyStrip response
  if is_complete then
    match afterFinalAnswerMarker final_answer with
    | some rest => (is_complete, rest)
    | none => (is_complete, final_answer)
  else (is_complete, final_answer)

/-! ## Action execution (`ReActAgent._execute_action`,
`OODAAgent._execute_action`)

A tool's `execute` may raise (parameter validation or the wrapped function);
this is modelled with `Except String`, the error carrying `str(e)`.  The
stdlib collaborators `json.loads` / `json.dumps` are opaque parameters
(`jsonDecode`, `jsonDump`), and `vStr` embeds a Python string into the opaque
tool-value domain. -/

/-- A registered capability. -/
structure MTool (V : Type) where
  name : String
  description : String
  exec : List (String × V) → Except String V

/-- Python `", ".join`. -/
def joinComma : List String → String
  | [] => ""
  | [s] => s
  | s :: rest => s ++ ", " ++ joinComma rest

/-- Regex `\w` (ASCII model). -/
def wordChar (c : Char) : Bool := c.isAlphanum || c == '_'

/-- `s.startswith("{")`. -/
def startsBrace (s : String) : Bool :=
  match s.data with
  | c :: _ => c == Char.ofNat 123
  | [] => false

/-- `s.endswith("}")`. -/
def endsBrace (s : String) : Bool :=
  match s.data.getLast? with
  | some c => c == Char.ofNat 125
  | none => false

/-- The `(?::|,|\s+WORD)?\s+` part of the action regexes, positioned right
after the tool-name group; returns the suffix at which the final capture
starts.  Alternatives are tried in regex order with the backtracking the
Python engine performs: a separator alternative only commits if the
mandatory `\s+` after the optional group can still match; shrinking the
greedy `\w+` group can never help because none of the alternatives nor `\s+`
can start with a word character. -/
def sepWsCapture (word : String) (l : List Char) : Option (List Char) :=
  let tryWs : List Char → Option (List Char) := fun r =>
    let ws := r.takeWhile pyIsWS
    if ws.isEmpty then none else some (r.drop ws.length)
  match l with
  | ':' :: r => tryWs r
  | ',' :: r => tryWs r
  | _ =>
      let ws := l.takeWhile pyIsWS
      if ws.isEmpty then none
      else
        let afterWs := l.drop ws.length
        if word.data.isPrefixOf afterWs then
          match tryWs (afterWs.drop word.data.length) with
          | some r2 => some r2
          | none => tryWs l
        else tryWs l

/-- `(.*)` without `DOTALL`: the rest of the current line. -/
def lineCapture (l : List Char) : String := ⟨l.takeWhile (fun c => !(c == '\n'))⟩

/-- `(\w+)(?::|,|\s+with)?\s+(.*)` after the `use ` literal. -/
def useTailReact (l : List Char) : Option (String × String) :=
  let w := l.takeWhile wordChar
  if w.isEmpty then none
  else
    match sepWsCapture "with" (l.drop w.length) with
    | some r => some (⟨w⟩, lineCapture r)
    | none => none

/-- Leftmost match of `use (\w+)(?::|,|\s+with)?\s+(.*)` (IGNORECASE). -/
def findUseReact : List Char → Option (String × String)
  | [] => none
  | c :: rest =>
      if pyLower ⟨(c :: rest).take 4⟩ = "use " then
        match useTailReact ((c :: rest).drop 4) with
        | some r => some r
        | none => findUseReact rest
      else findUseReact rest

/-- Leftmost match of `search(?::|,|\s+for)?\s+(.*)` (IGNORECASE). -/
def findSearchReact : List Char → Option String
  | [] => none
  | c :: rest =>
      if pyLower ⟨(c :: rest).take 6⟩ = "search" then
        match sepWsCapture "for" ((c :: rest).drop 6) with
        | some r => some (lineCapture r)
        | none => findSearchReact rest
      else findSearchReact rest

/-- `(\w+)(?::|,|\s+with|,?\s+)?\s+(.*)` without the optional `use`
prefix.  The `,?\s+` alternative is behaviorally subsumed: with a comma it
is only reached after the plain `,` alternative failed (no whitespace after
the comma), in which case it fails too, and without a comma its
`\s+`-then-`\s+` backtracking consumes exactly the whitespace run the empty
alternative consumes. -/
def oodaTailMatch (l : List Char) : Option (String × String) :=
  let w := l.takeWhile wordChar
  if w.isEmpty then none
  else
    match sepWsCapture "with" (l.drop w.length) with
    | some r => some (⟨w⟩, lineCapture r)
    | none => none

/-- Leftmost match of `(?:use\s+)?(\w+)(?::|,|\s+with|,?\s+)?\s+(.*)`
(IGNORECASE): at each position the engine first tries to consume `use\s+`,
then falls back to matching the name group directly. -/
def oodaFindToolMatch : List Char → Option (String × String)
  | [] => none
  | c :: rest =>
      let l := c :: rest
      let withUse : Option (String × String) :=
        if pyLower ⟨l.take 3⟩ = "use" then
          let after := l.drop 3
          let ws := after.takeWhile pyIsWS
          if ws.isEmpty then none
          else oodaTailMatch (after.drop ws.length)
        else none
      match withUse with
      | some r => some r
      | none =>
          match oodaTailMatch l with
          | some r => some r
          | none => oodaFindToolMatch rest

/-- The parameter dict built by `ReActAgent._execute_action`: decode JSON
when the input is braced (a decode failure falls back to a query dict),
otherwise a single `query` parameter. -/
def reactParams {V : Type} (jsonDecode : String → Option (List (String × V)))
    (vStr : String → V) (toolInput : String) : List (String × V) :=
  if startsBrace toolInput && endsBrace toolInput then
    match jsonDecode toolInput with
    | some p => p
    | none => [("query", vStr toolInput)]
  else [("query", vStr toolInput)]

/-- `ReActAgent._execute_action`: parse a tool or search instruction out of
the free-text action, execute it, and fold every failure — unknown tool,
missing search tool, or an exception from the tool — into the returned
observation string.  Total: it never propagates an error. -/
def reactExecuteAction {V : Type} (jsonDecode : String → Option (List (String × V)))
    (jsonDump : V → String) (vStr : String → V) (tools : List (MTool V))
    (action : String) : String :=
  match findUseReact action.data with
  | some (rawName, rawInput) =>
      let toolName := pyStrip rawName
      let toolInput := pyStrip rawInput
      let params := reactParams jsonDecode vStr toolInput
      match tools.find? (fun t => pyLower t.name == pyLower toolName) with
      | some tool =>
          match tool.exec params with
          | .ok result => "Tool '" ++ toolName ++ "' returned: " ++ jsonDump result
          | .error e => "Error executing action: " ++ e
      | none =>
          "Error: Tool '" ++ toolName ++ "' not found. Available tools: " ++
            joinComma (tools.map (·.name))
  | none =>
      match findSearchReact action.data with
      | some rawQuery =>
          let q := pyStrip rawQuery
          match tools.find? (fun t => pyLower t.name == "search") with
          | some tool =>
              match tool.exec [("query", vStr q)] with
              | .ok result => "Search results for '" ++ q ++ "': " ++ jsonDump result
              | .error e => "Error executing action: " ++ e
          | none => "Error: No search tool available."
      | none =>
          "Action '" ++ action ++
            "' was taken, but no specific tool was utilized. Please use a tool if you need to retrieve information."

/-- `OODAAgent._execute_action` applied to the latest decision text:
case-insensitive tool lookup, errors folded into the observation string. -/
def oodaExecuteAction {V : Type} (jsonDump : V → String) (vStr : String → V)
    (tools : List (MTool V)) (availableTools : List String)
    (decision : String) : String :=
  match oodaFindToolMatch decision.data with
  | some (rawName, rawParam) =>
      let toolName := pyLower (pyStrip rawName)
      let param := pyStrip rawParam
      match tools.find? (fun t => pyLower t.name == toolName) with
      | some tool =>
          match tool.exec [("query", vStr param)] with
          | .ok result =>
              "Action result: Used " ++ tool.name ++ " with parameter '" ++ param ++
                "' and got: " ++ jsonDump result
          | .error e => "Error executing tool " ++ tool.name ++ ": " ++ e
      | none =>
          "Could not find tool '" ++ toolName ++ "'. Available tools: " ++
            joinComma availableTools
  | none => "Action taken based on decision: " ++ decision

/-! ## Cycle controllers (`harkaam/agents/*.py`)

The Model Gateway `generate(system_prompt, user_prompt, temperature,
max_tokens) -> (thinking, response)` is modelled as an opaque oracle
`Gen : String → String → String` giving the response text; the discarded
`thinking` component and the numeric sampling parameters (temperature,
max_tokens) have no control-flow effect in the agents and are omitted.  The
mutable `AgentState` bookkeeping (`_update_state`, verbose logging) is
observational and not modelled; `AgentResult.final_state` is likewise
omitted. -/

/-- The Model Gateway oracle. -/
def Gen : Type := String → String → String

/-- A metadata value (`AgentResult.metadata` holds strings and ints here). -/
inductive MetaV where
  | s : String → MetaV
  | n : Nat → MetaV

/-- The content of a step-trace entry: a string or a list of strings. -/
inductive StepContent where
  | str : String → StepContent
  | strs : List String → StepContent

/-- One intermediate step of an agent run. -/
structure StepE where
  stype : String
  content : StepContent
  observation : Option String := none

/-- `AgentResult` (without the unmodelled `final_state`). -/
structure AgentResultE where
  agent_id : String
  output : String
  intermediate_steps : List StepE
  metadata : List (String × MetaV)

/-- `'\n'.join`. -/
def joinNL : List String → String
  | [] => ""
  | [s] => s
  | s :: rest => s ++ "\n" ++ joinNL rest

/-- The tool-description dict `{tool.name: tool.description}` (insertion
order, duplicates overwritten in place). -/
def toolDescs {V : Type} (tools : List (MTool V)) : List (String × String) :=
  tools.foldl (fun m t => aset m t.name t.description) []

/-- The `- name: description` block built from the tool-description dict. -/
def toolDescLines {V : Type} (tools : List (MTool V)) : String :=
  String.join ((toolDescs tools).map (fun nd => "- " ++ nd.1 ++ ": " ++ nd.2 ++ "\n"))

/-- The `REACT_SYSTEM_PROMPT` template after substitution. -/
def reactSystemTemplate (agent_name agent_description available_actions : String) : String :=
  "\nYou are " ++ agent_name ++ ", " ++ agent_description ++
  ".\n\nYou will solve tasks step-by-step by thinking and acting in alternating steps.\n\nThe process follows this pattern:\n1. Think about the current situation and decide what to do next\n2. Act by using available tools to gather information\n3. Observe the results of your action\n4. Decide if the task is done or if you need to continue\n5. Repeat until the task is complete\n\nFollow this format strictly:\nThought: Your reasoning about the current situation and what you should do next.\nAction: The action to take (use a tool or search). Example: \"use search, What is the capital of France?\"\nObservation: The result of the action (will be provided after your action).\n... (repeat Thought/Action/Observation as needed)\nFinal Answer: Your final response to the task once you have all needed information.\n\nAvailable actions: " ++
  available_actions ++ "\n"

/-- The `OODA_SYSTEM_PROMPT` template after substitution. -/
def oodaSystemTemplate (agent_name agent_description : String) : String :=
  "\nYou are " ++ agent_name ++ ", " ++ agent_description ++
  ".\n\nYou will solve tasks using the OODA loop:\n1. Observe: Gather information about the situation\n2. Orient: Analyze the information and form a mental model\n3. Decide: Make a decision based on your analysis\n4. Act: Execute your decision\n\nFollow this format:\nObservation: What you observe about the situation.\nOrientation: Your analysis and understanding of the situation.\nDecision: What you decide to do based on your orientation.\nAction: The action you take.\n... (repeat steps as needed)\nFinal Answer: Your final response to the task.\n"

/-- The `BDI_SYSTEM_PROMPT` template after substitution. -/
def bdiSystemTemplate (agent_name agent_description : String) : String :=
  "\nYou are " ++ agent_name ++ ", " ++ agent_description ++
  ".\n\nYou will solve tasks using the BDI framework:\n1. Beliefs: What you know about the world\n2. Desires: Your goals or objectives\n3. Intentions: Your committed plans to achieve your desires\n\nFollow this format:\nBeliefs: Your current understanding of the situation.\nDesires: What you want to achieve.\nIntentions: Your plan to achieve your desires.\nExecution: The actions you take to execute your plan.\n... (update beliefs and repeat as needed)\nFinal Answer: Your final response to the task.\n"

/-- The `REWOO_SYSTEM_PROMPT` template after substitution. -/
def rewooSystemTemplate (agent_name agent_description : String) : String :=
  "\nYou are " ++ agent_name ++ ", " ++ agent_description ++
  ".\n\nYou will solve tasks through pure reasoning without external observations:\n1. Initial problem analysis\n2. Deep reasoning process\n3. Multi-step logical deduction\n4. Solution formulation\n\nFollow this format:\nProblem Analysis: Your understanding of the problem.\nReasoning:\n  Step 1: First step in your reasoning\n  Step 2: Second step in your reasoning\n  ...\nConclusion: The logical conclusion of your reasoning.\nFinal Answer: Your final response to the task.\n"

/-! ## `ReActAgent.execute` -/

/-- The ReAct cycle context (the behaviour-relevant fields of the `context`
dict; caller-supplied extra context entries are stored but never read by the
ReAct controller, and the tool name/description entries are derived from the
tool list). -/
structure RContext where
  task : String
  thoughts : List String
  actions : List String
  observations : List String

/-- The result dict of `_get_next_step`. -/
structure RNext where
  thought : Option String := none
  action : Option String := none
  final_answer : Option String := none

/-- The `Context History` block of `_prepare_user_prompt`: for each index a
thought line when present, and an action/observation pair when both are
present. -/
def reactHistoryBlock (ts as os : List String) : String :=
  String.join ((List.range (max (max ts.length as.length) os.length)).map
    (fun i =>
      (if i < ts.length then "Thought: " ++ ts.getD i "" ++ "\n" else "") ++
      (if i < as.length ∧ i < os.length then
        "Action: " ++ as.getD i "" ++ "\n" ++ "Observation: " ++ os.getD i "" ++ "\n"
      else "")))

/-- `ReActAgent._prepare_user_prompt`. -/
def reactUserPrompt {V : Type} (tools : List (MTool V)) (ctx : RContext) : String :=
  "Task: " ++ ctx.task ++ "\n\n" ++
  (if tools.isEmpty then "" else
    "Available Tools:\n" ++
    String.join (tools.map (fun t =>
      "- " ++ t.name ++ ": " ++ ((alookup (toolDescs tools) t.name).getD "") ++ "\n")) ++
    "\n") ++
  "Context History:\n" ++
  reactHistoryBlock ctx.thoughts ctx.actions ctx.observations ++
  "\nContinue the reasoning process. Think about what to do next." ++
  "\nRemember to use the format: Thought: ... Action: ... Observation: ... Final Answer: ..."

/-- `ReActAgent._get_next_step`: one gateway call, parsed with the ReAct
grammar; the latest cycle's thought/action, the final answer when nonempty,
and the whole response as a thought when nothing was recognized. -/
def reactNextStep {V : Type} (gen : Gen) (tools : List (MTool V))
    (name desc : String) (ctx : RContext) : RNext :=
  let sys := reactSystemTemplate name desc
    (joinComma ("search" :: "use tool" :: tools.map (fun t => "use " ++ t.name)))
  let usr := reactUserPrompt tools ctx
  let response := gen sys usr
  let parsed := reactParse response
  let fromCycle : RNext :=
    match parsed.cycles.getLast? with
    | some last => { thought := last.thought, action := last.action }
    | none => {}
  let withFA :=
    if parsed.final_answer ≠ "" then { fromCycle with final_answer := some parsed.final_answer }
    else fromCycle
  if withFA.thought = none ∧ withFA.action = none ∧ withFA.final_answer = none then
    { thought := some response }
  else withFA

/-- `ReActAgent._generate_partial_answer`. -/
def reactPartialAnswer (gen : Gen) (ctx : RContext) : String :=
  let n := min (min ctx.thoughts.length ctx.actions.length) ctx.observations.length
  let usr := "Task: " ++ ctx.task ++ "\n\n" ++ "Information gathered so far:\n" ++
    String.join ((List.range n).map (fun i =>
      "Thought: " ++ ctx.thoughts.getD i "" ++ "\n" ++
      "Action: " ++ ctx.actions.getD i "" ++ "\n" ++
      "Observation: " ++ ctx.observations.getD i "" ++ "\n\n")) ++
    "\nPlease provide a partial answer based on the information gathered so far."
  gen "You are a helpful assistant. Based on the information gathered so far, provide a partial answer to the task." usr

/-- The main loop of `ReActAgent.execute`, with the remaining iteration
budget as fuel.  Returns the context, steps, iteration count, completion
flag and final answer. -/
def reactLoop {V : Type} (gen : Gen)
    (jsonDecode : String → Option (List (String × V))) (jsonDump : V → String)
    (vStr : String → V) (tools : List (MTool V)) (name desc : String) :
    Nat → RContext → List StepE → Nat →
      RContext × List StepE × Nat × Bool × String
  | 0, ctx, steps, iters => (ctx, steps, iters, false, "")
  | remaining + 1, ctx, steps, iters =>
      let iters := iters + 1
      let next := reactNextStep gen tools name desc ctx
      let (ctx1, steps1) : RContext × List StepE :=
        match next.thought with
        | some th =>
            if th ≠ "" then
              ({ ctx with thoughts := ctx.thoughts ++ [th] },
               steps ++ [{ stype := "thought", content := .str th }])
            else (ctx, steps)
        | none => (ctx, steps)
      let (ctx2, steps2) : RContext × List StepE :=
        match next.action with
        | some a =>
            if a ≠ "" then
              let obs := reactExecuteAction jsonDecode jsonDump vStr tools a
              ({ ctx1 with actions := ctx1.actions ++ [a],
                           observations := ctx1.observations ++ [obs] },
               steps1 ++ [{ stype := "action", content := .str a, observation := some obs }])
            else (ctx1, steps1)
        | none => (ctx1, steps1)
      match next.final_answer with
      | some fa =>
          if fa ≠ "" then (ctx2, steps2, iters, true, fa)
          else reactLoop gen jsonDecode jsonDump vStr tools name desc remaining ctx2 steps2 iters
      | none => reactLoop gen jsonDecode jsonDump vStr tools name desc remaining ctx2 steps2 iters

/-- `ReActAgent.execute`. -/
def reactExecute {V : Type} (gen : Gen)
    (jsonDecode : String → Option (List (String × V))) (jsonDump : V → String)
    (vStr : String → V) (tools : List (MTool V)) (agentId name desc : String)
    (maxIterations : Nat) (task : String) : AgentResultE :=
  let ctx0 : RContext := { task := task, thoughts := [], actions := [], observations := [] }
  let r := reactLoop gen jsonDecode jsonDump vStr tools name desc maxIterations ctx0 [] 0
  let ctx := r.1
  let steps := r.2.1
  let iters := r.2.2.1
  let isDone := r.2.2.2.1
  let fa := r.2.2.2.2
  let finalAnswer :=
    if isDone then fa
    else "Task not completed within maximum iterations. " ++ reactPartialAnswer gen ctx
  { agent_id := agentId, output := finalAnswer, intermediate_steps := steps,
    metadata := [("architecture", .s "react"), ("iterations", .n iters)] }

/-! ## `OODAAgent.execute` -/

/-- The OODA cycle context. -/
structure OContext where
  task : String
  observations : List String
  orientations : List String
  decisions : List String
  actions : List String

/-- The three prompted stages of `_process_stage`. -/
inductive OStage where
  | observation
  | orientation
  | decision

/-- `l[-1]` under a nonemptiness guard. -/
def lastD (l : List String) : String := (l.getLast?).getD ""

/-- `l[-2:]`. -/
def lastTwo (l : List String) : List String := l.drop (l.length - 2)

/-- The per-stage user prompt of `OODAAgent._process_stage`. -/
def oodaStageUserPrompt {V : Type} (tools : List (MTool V)) (ctx : OContext)
    (stage : OStage) : String :=
  "Task: " ++ ctx.task ++ "\n\n" ++
  (match stage with
   | .observation =>
       (if ctx.observations.isEmpty then "" else
         "Previous observations:\n" ++
         String.join ((lastTwo ctx.observations).map (fun o => "- " ++ o ++ "\n\n"))) ++
       (if ctx.actions.isEmpty then "" else
         "Previous actions:\n" ++
         String.join ((lastTwo ctx.actions).map (fun a => "- " ++ a ++ "\n\n"))) ++
       "Please observe the current situation. What information can you gather about the task?"
   | .orientation =>
       (if ctx.observations.isEmpty then "" else
         "Current observation:\n" ++ lastD ctx.observations ++ "\n\n") ++
       "Based on your observation, analyze the information and form a mental model of the situation."
   | .decision =>
       (if ctx.observations.isEmpty then "" else
         "Current observation:\n" ++ lastD ctx.observations ++ "\n\n") ++
       (if ctx.orientations.isEmpty then "" else
         "Current orientation:\n" ++ lastD ctx.orientations ++ "\n\n") ++
       ("Based on your orientation, make a decision. What action will you take to accomplish your task?" ++
        (if tools.isEmpty then "" else
          " Which tool will you use, if any?\n\nAvailable tools:\n" ++ toolDescLines tools)))

/-- `OODAAgent._extract_content`: first try the OODA grammar, then the
stage-specific fallback pattern, then the whole response. -/
def oodaExtractContent (response : String) (stage : OStage) : String :=
  let parsed := oodaParse response
  let get : OLoop → Option String :=
    match stage with
    | .observation => (·.observation)
    | .orientation => (·.orientation)
    | .decision => (·.decision)
  let fromLoops :=
    match parsed.loops.find? (fun l => (get l).isSome) with
    | some l => (get l).getD ""
    | none => ""
  let content :=
    if fromLoops = "" then
      match stage with
      | .observation =>
          searchLabel (pluralLabel "Observation") true [lit "Orientation:"] response
      | .orientation =>
          searchLabel (pluralLabel "Orientation") true [lit "Decision:"] response
      | .decision =>
          searchLabel (pluralLabel "Decision") true [lit "Action:"] response
    else fromLoops
  if content = "" then response else content

/-- `OODAAgent._process_stage`: build the stage prompt, call the gateway,
extract the stage content. -/
def oodaProcessStage {V : Type} (gen : Gen) (tools : List (MTool V))
    (name desc : String) (ctx : OContext) (stage : OStage) : String :=
  oodaExtractContent
    (gen (oodaSystemTemplate name desc) (oodaStageUserPrompt tools ctx stage)) stage

/-- The user prompt of `OODAAgent._check_completion`. -/
def oodaCompletionPrompt (ctx : OContext) : String :=
  "Task: " ++ ctx.task ++ "\n\n" ++
  (if ctx.observations.isEmpty then "" else
    "Latest observation:\n" ++ lastD ctx.observations ++ "\n\n") ++
  (if ctx.orientations.isEmpty then "" else
    "Latest orientation:\n" ++ lastD ctx.orientations ++ "\n\n") ++
  (if ctx.decisions.isEmpty then "" else
    "Latest decision:\n" ++ lastD ctx.decisions ++ "\n\n") ++
  (if ctx.actions.isEmpty then "" else
    "Latest action result:\n" ++ lastD ctx.actions ++ "\n\n") ++
  "Based on the above information, has the task been completed? If yes, provide a final answer. If no, explain what's still needed."

/-- `OODAAgent._check_completion`: one gateway call processed by the shared
completion logic. -/
def oodaCheckCompletionStage (gen : Gen) (ctx : OContext) : Bool × String :=
  oodaCheckCompletion
    (gen "Determine if the agent has completed its task and can provide a final answer."
      (oodaCompletionPrompt ctx))

/-- `OODAAgent._generate_partial_answer`. -/
def oodaPartialAnswer (gen : Gen) (ctx : OContext) : String :=
  gen "Based on the information gathered so far, provide a partial answer to the task."
    ("Task: " ++ ctx.task ++ "\n\n" ++
     (if ctx.observations.isEmpty then "" else
       "Latest observation:\n" ++ lastD ctx.observations ++ "\n\n") ++
     (if ctx.orientations.isEmpty then "" else
       "Latest orientation:\n" ++ lastD ctx.orientations ++ "\n\n") ++
     (if ctx.actions.isEmpty then "" else
       "Latest action result:\n" ++ lastD ctx.actions ++ "\n\n") ++
     "Please provide a partial answer based on the information gathered so far.")

/-- The main loop of `OODAAgent.execute`. -/
def oodaLoop {V : Type} (gen : Gen) (jsonDump : V → String) (vStr : String → V)
    (tools : List (MTool V)) (name desc : String) :
    Nat → OContext → List StepE → Nat →
      OContext × List StepE × Nat × Bool × String
  | 0, ctx, steps, iters => (ctx, steps, iters, false, "")
  | remaining + 1, ctx, steps, iters =>
      let iters := iters + 1
      let obs := oodaProcessStage gen tools name desc ctx .observation
      let ctx := { ctx with observations := ctx.observations ++ [obs] }
      let steps := steps ++ [{ stype := "observation", content := .str obs }]
      let orient := oodaProcessStage gen tools name desc ctx .orientation
      let ctx := { ctx with orientations := ctx.orientations ++ [orient] }
      let steps := steps ++ [{ stype := "orientation", content := .str orient }]
      let dec := oodaProcessStage gen tools name desc ctx .decision
      let ctx := { ctx with decisions := ctx.decisions ++ [dec] }
      let steps := steps ++ [{ stype := "decision", content := .str dec }]
      let actionResult :=
        oodaExecuteAction jsonDump vStr tools (tools.map (·.name)) (lastD ctx.decisions)
      let ctx := { ctx with actions := ctx.actions ++ [actionResult] }
      let steps := steps ++ [{ stype := "action", content := .str actionResult }]
      let check := oodaCheckCompletionStage gen ctx
      if check.1 then (ctx, steps, iters, true, check.2)
      else oodaLoop gen jsonDump vStr tools name desc remaining ctx steps iters

/-- `OODAAgent.execute`. -/
def oodaExecute {V : Type} (gen : Gen) (jsonDump : V → String) (vStr : String → V)
    (tools : List (MTool V)) (agentId name desc : String) (maxIterations : Nat)
    (task : String) : AgentResultE :=
  let r := oodaLoop gen jsonDump vStr tools name desc maxIterations
    ⟨task, [], [], [], []⟩ [] 0
  let ctx := r.1
  let steps := r.2.1
  let iters := r.2.2.1
  let isDone := r.2.2.2.1
  let fa := r.2.2.2.2
  let finalAnswer :=
    if isDone then fa
    else "Task not completed within maximum iterations. " ++ oodaPartialAnswer gen ctx
  { agent_id := agentId, output := finalAnswer, intermediate_steps := steps,
    metadata := [("architecture", .s "ooda"), ("iterations", .n iters)] }

/-! ## `BDIAgent.execute` -/

/-- The BDI cycle context. -/
structure BContext where
  task : String
  beliefs : List String
  desires : List String
  intentions : List String
  selected_actions : List String
  actions_results : List String

/-- The four prompted BDI stages. -/
inductive BStage where
  | beliefs
  | desires
  | intentions
  | actions

/-- `BDIAgent._extract_section`: first cycle of the BDI grammar carrying the
section, then the stage fallback pattern (whole response when the pattern
has no match), then the whole response when still empty. -/
def bdiExtractSection (response : String) (stage : BStage) : String :=
  let parsed := bdiParse response
  let get : BCycle → Option String :=
    match stage with
    | .beliefs => (·.beliefs)
    | .desires => (·.desires)
    | .intentions => (·.intentions)
    | .actions => fun _ => none
  let fromCycles :=
    match parsed.cycles.find? (fun c => (get c).isSome) with
    | some c => (get c).getD ""
    | none => ""
  let content :=
    if fromCycles = "" then
      let m :=
        match stage with
        | .beliefs =>
            matchLabel (pluralLabel "Belief") true
              [lit "Desire", lit "Intention", lit "Action"] response.data
        | .desires =>
            matchLabel (pluralLabel "Desire") true
              [lit "Intention", lit "Action"] response.data
        | .intentions =>
            matchLabel (pluralLabel "Intention") true
              [lit "Act", lit "Execution"] response.data
        | .actions =>
            matchLabel (pluralLabel "Action") true [] response.data
      match m with
      | some (cap, _) => cap
      | none => response
    else fromCycles
  if content = "" then response else content

/-- The per-stage user prompt of the BDI stage methods. -/
def bdiStageUserPrompt {V : Type} (tools : List (MTool V)) (ctx : BContext)
    (stage : BStage) : String :=
  "Task: " ++ ctx.task ++ "\n\n" ++
  (match stage with
   | .beliefs =>
       (if ctx.beliefs.isEmpty then "" else
         "Previous beliefs:\n" ++ lastD ctx.beliefs ++ "\n\n") ++
       (if ctx.actions_results.isEmpty then "" else
         "Recent action results:\n" ++ lastD ctx.actions_results ++ "\n\n") ++
       "Update your beliefs based on the task and previous information. What do you know or believe about the current situation?"
   | .desires =>
       (if ctx.beliefs.isEmpty then "" else
         "Current beliefs:\n" ++ lastD ctx.beliefs ++ "\n\n") ++
       "Based on your current beliefs and the task, generate desires (goals). What do you want to achieve?"
   | .intentions =>
       (if ctx.beliefs.isEmpty then "" else
         "Current beliefs:\n" ++ lastD ctx.beliefs ++ "\n\n") ++
       (if ctx.desires.isEmpty then "" else
         "Current desires:\n" ++ lastD ctx.desires ++ "\n\n") ++
       "Based on your beliefs and desires, what specific intentions do you commit to?"
   | .actions =>
       (if ctx.beliefs.isEmpty then "" else
         "Current beliefs:\n" ++ lastD ctx.beliefs ++ "\n\n") ++
       (if ctx.intentions.isEmpty then "" else
         "Current intentions:\n" ++ lastD ctx.intentions ++ "\n\n") ++
       "Available tools:\n" ++ toolDescLines tools ++
       "\nBased on your intentions, which tool will you use and with what parameters?")

/-- One prompted BDI stage: gateway call plus section extraction. -/
def bdiStage {V : Type} (gen : Gen) (tools : List (MTool V)) (name desc : String)
    (ctx : BContext) (stage : BStage) : String :=
  bdiExtractSection (gen (bdiSystemTemplate name desc) (bdiStageUserPrompt tools ctx stage)) stage

/-- `BDIAgent._execute_actions` applied to the latest selected actions: the
same tool-instruction regex as OODA, a `Could not find tool` message without
the available-tools suffix, and a generic fallback. -/
def bdiExecuteActions {V : Type} (jsonDump : V → String) (vStr : String → V)
    (tools : List (MTool V)) (actions : String) : String :=
  match oodaFindToolMatch actions.data with
  | some (rawName, rawParam) =>
      let toolName := pyLower (pyStrip rawName)
      let param := pyStrip rawParam
      match tools.find? (fun t => pyLower t.name == toolName) with
      | some tool =>
          match tool.exec [("query", vStr param)] with
          | .ok result =>
              "Action result: Used " ++ tool.name ++ " with parameter '" ++ param ++
                "' and got: " ++ jsonDump result
          | .error e => "Error executing tool " ++ tool.name ++ ": " ++ e
      | none => "Could not find tool '" ++ toolName ++ "'."
  | none => "Actions performed: " ++ actions ++ " (no specific tool used)"

/-- `BDIAgent._check_completion`: one gateway call processed by the shared
completion logic. -/
def bdiCheckCompletionStage (gen : Gen) (ctx : BContext) : Bool × String :=
  bdiCheckCompletion
    (gen "Determine if the agent has completed its task."
      ("Task: " ++ ctx.task ++ "\n\n" ++
       (if ctx.beliefs.isEmpty then "" else
         "Current beliefs:\n" ++ lastD ctx.beliefs ++ "\n\n") ++
       (if ctx.actions_results.isEmpty then "" else
         "Latest action results:\n" ++ lastD ctx.actions_results ++ "\n\n") ++
       "Has the task been completed? If yes, provide a final answer."))

/-- `BDIAgent._generate_partial_answer`: note that the not-completed notice
is prefixed here, inside the helper. -/
def bdiPartialAnswer (gen : Gen) (ctx : BContext) : String :=
  "Task not completed within maximum iterations. " ++
  gen "Provide a partial answer based on information gathered so far."
    ("Task: " ++ ctx.task ++ "\n\n" ++
     (if ctx.beliefs.isEmpty then "" else
       "Current beliefs:\n" ++ lastD ctx.beliefs ++ "\n\n") ++
     (if ctx.actions_results.isEmpty then "" else
       "Latest action results:\n" ++ lastD ctx.actions_results ++ "\n\n") ++
     "Please provide a partial answer based on the information gathered so far.")

/-- The main loop of `BDIAgent.execute`. -/
def bdiLoop {V : Type} (gen : Gen) (jsonDump : V → String) (vStr : String → V)
    (tools : List (MTool V)) (name desc : String) :
    Nat → BContext → List StepE → Nat →
      BContext × List StepE × Nat × Bool × String
  | 0, ctx, steps, iters => (ctx, steps, iters, false, "")
  | remaining + 1, ctx, steps, iters =>
      let iters := iters + 1
      let bel := bdiStage gen tools name desc ctx .beliefs
      let ctx := { ctx with beliefs := ctx.beliefs ++ [bel] }
      let steps := steps ++ [{ stype := "beliefs", content := .str bel }]
      let des := bdiStage gen tools name desc ctx .desires
      let ctx := { ctx with desires := ctx.desires ++ [des] }
      let steps := steps ++ [{ stype := "desires", content := .str des }]
      let ints := bdiStage gen tools name desc ctx .intentions
      let ctx := { ctx with intentions := ctx.intentions ++ [ints] }
      let steps := steps ++ [{ stype := "intentions", content := .str ints }]
      let acts := bdiStage gen tools name desc ctx .actions
      let ctx := { ctx with selected_actions := ctx.selected_actions ++ [acts] }
      let steps := steps ++ [{ stype := "actions", content := .str acts }]
      let results := bdiExecuteActions jsonDump vStr tools (lastD ctx.selected_actions)
      let ctx := { ctx with actions_results := ctx.actions_results ++ [results] }
      let steps := steps ++ [{ stype := "results", content := .str results }]
      let check := bdiCheckCompletionStage gen ctx
      if check.1 then (ctx, steps, iters, true, check.2)
      else bdiLoop gen jsonDump vStr tools name desc remaining ctx steps iters

/-- `BDIAgent.execute`. -/
def bdiExecute {V : Type} (gen : Gen) (jsonDump : V → String) (vStr : String → V)
    (tools : List (MTool V)) (agentId name desc : String) (maxIterations : Nat)
    (task : String) : AgentResultE :=
  let r := bdiLoop gen jsonDump vStr tools name desc maxIterations
    ⟨task, [], [], [], [], []⟩ [] 0
  let ctx := r.1
  let steps := r.2.1
  let iters := r.2.2.1
  let isDone := r.2.2.2.1
  let fa := r.2.2.2.2
  let finalAnswer := if isDone then fa else bdiPartialAnswer gen ctx
  { agent_id := agentId, output := finalAnswer, intermediate_steps := steps,
    metadata := [("architecture", .s "bdi"), ("iterations", .n iters)] }

/-! ## `ReWOOAgent.execute`

ReWOO is the single-pass plan/delegate/aggregate variant: no iteration
budget, no completion check, no exhausted state. -/

/-- Alternation of matchers (regex `(?:A|B)`). -/
def altPat (p q : Pat) : Pat := fun l =>
  match p l with
  | some n => some n
  | none => q l

/-- `\s+` (greedy; in the worker-task patterns it is always followed by a
digit or a word, so greediness is exact). -/
def wsPat : Pat := fun l =>
  let d := l.takeWhile pyIsWS
  if d.isEmpty then none else some d.length

/-- A single character out of a class (regex `[...]`). -/
def classPat (cs : List Char) : Pat := fun l =>
  match l with
  | c :: _ => if cs.contains c then some 1 else none
  | [] => none

/-- Like `scanUntil` but for lookahead terminators `(?=TERMS|$)`: the
terminator is not consumed, the rest resumes at it. -/
def scanUntilLA (terms : List Pat) : List Char → List Char × List Char
  | [] => ([], [])
  | c :: rest =>
      match firstTerm terms (c :: rest) with
      | some _ => ([], c :: rest)
      | none =>
          let (cap, r) := scanUntilLA terms rest
          (c :: cap, r)

/-- One match of `LABEL[\s*](.*?)(?=TERMS|$)` from the leftmost label
occurrence; the capture is returned unstripped (`re.findall` group
semantics). -/
def matchLabelLA (label : Pat) (skipWS : Bool) (terms : List Pat)
    (l : List Char) : Option (String × List Char) :=
  match findPat label l with
  | none => none
  | some (i, n) =>
      let afterLabel := (l.drop i).drop n
      let body := if skipWS then afterLabel.dropWhile pyIsWS else afterLabel
      let (cap, rest) := scanUntilLA terms body
      some (⟨cap⟩, rest)

/-- `re.findall` over a lookahead-terminated pattern (fuelled). -/
def findAllLAFuel (label : Pat) (skipWS : Bool) (terms : List Pat) :
    Nat → List Char → List String
  | 0, _ => []
  | fuel + 1, l =>
      match matchLabelLA label skipWS terms l with
      | none => []
      | some (cap, rest) => cap :: findAllLAFuel label skipWS terms fuel rest

/-- All captures of a lookahead-terminated pattern over a string. -/
def findAllLA (label : Pat) (skipWS : Bool) (terms : List Pat) (s : String) :
    List String :=
  findAllLAFuel label skipWS terms (s.data.length + 1) s.data

/-- `(?:Worker|Task)\s+\d+`. -/
def workerTaskNum : Pat :=
  seqPat (altPat (lit "Worker") (lit "Task")) (seqPat wsPat digitsPat)

/-- The six worker-task extraction patterns of `_assign_worker_tasks`, in
source order: label pattern, whether `\s*` follows it, and the lookahead
terminators. -/
def rewooTaskPats : List (Pat × Bool × List Pat) :=
  [ (seqPat workerTaskNum (lit ":"), true, [seqPat workerTaskNum (lit ":")]),
    (seqPat workerTaskNum (classPat ['.', '|', ')']), true, [workerTaskNum]),
    (seqPat digitsPat (lit "."), true, [seqPat digitsPat (lit ".")]),
    (lit "- ", false, [lit "-"]),
    (lit "•", true, [lit "•"]),
    (seqPat (lit "Subtask") (seqPat wsPat (seqPat digitsPat (lit ":"))), true,
      [lit "Subtask"]) ]

/-- Try each worker-task pattern in order; return the first pattern's
cleaned (stripped, nonempty) captures, truncated to the worker count. -/
def rewooTryPats (numWorkers : Nat) (text : String) :
    List (Pat × Bool × List Pat) → Option (List String)
  | [] => none
  | (label, skip, terms) :: rest =>
      let tasks := findAllLA label skip terms text
      if tasks.isEmpty then rewooTryPats numWorkers text rest
      else
        let cleaned := (tasks.map pyStrip).filter (fun t => !(t == ""))
        if cleaned.isEmpty then rewooTryPats numWorkers text rest
        else some (cleaned.take numWorkers)

/-- `_create_default_tasks`. -/
def rewooDefaultTasks (numWorkers : Nat) (task : String) : List String :=
  (List.range numWorkers).map (fun i =>
    if i = 0 then "Analyze the core aspects of " ++ task
    else if i = 1 then "Consider alternative approaches to " ++ task
    else "Identify potential challenges or edge cases in " ++ task)

/-- The user prompt of `_generate_llm_response`. -/
def rewooUserPrompt (contextInfo : List (String × String)) (task addition : String) :
    String :=
  "Task: " ++ task ++ "\n\n" ++
  (if contextInfo.isEmpty then "" else
    "Context information:\n" ++
    String.join (contextInfo.map (fun kv => "- " ++ kv.1 ++ ": " ++ kv.2 ++ "\n")) ++
    "\n") ++
  addition

/-- `_generate_llm_response` (the gateway call; the state update is
observational). -/
def rewooGenResponse (gen : Gen) (contextInfo : List (String × String))
    (desc task addition roleName : String) : String :=
  gen (rewooSystemTemplate roleName desc) (rewooUserPrompt contextInfo task addition)

/-- `_assign_worker_tasks`: the six patterns over the plan, then an
LLM-assisted extraction retried with the same patterns, then defaults. -/
def rewooAssignTasks (gen : Gen) (numWorkers : Nat) (plan task : String) :
    List String :=
  match rewooTryPats numWorkers plan rewooTaskPats with
  | some ts => ts
  | none =>
      let resp := gen "Extract specific worker tasks from this plan."
        ("Plan:\n" ++ plan ++ "\n\nExtract " ++ toString numWorkers ++
          " specific worker tasks from this plan. Number them clearly.")
      match rewooTryPats numWorkers resp rewooTaskPats with
      | some ts => ts
      | none => rewooDefaultTasks numWorkers task

/-- `_format_worker_results`. -/
def rewooFormatResults (results : List String) : String :=
  "Worker Results:\n" ++
  String.join ((List.range results.length).map (fun i =>
    "Worker " ++ toString (i + 1) ++ " Result:\n" ++ results.getD i "" ++ "\n\n"))

/-- `ReWOOAgent.execute`: plan, extract worker tasks, run the workers in
sequence, let the solver integrate — one fixed pass, whatever the
(ignored) iteration budget of the constructor kwargs. -/
def rewooExecute (gen : Gen) (contextInfo : List (String × String))
    (agentId _name desc : String) (numWorkers reasoningDepth : Nat)
    (reasoningStyle : String) (task : String) : AgentResultE :=
  let plan := rewooGenResponse gen contextInfo desc task
    ("You are the Planner component. Create a plan with " ++ toString numWorkers ++
      " subtasks that can be solved in parallel by different worker agents.") "Planner"
  let workerTasks := rewooAssignTasks gen numWorkers plan task
  let workerResults := (List.range workerTasks.length).map (fun i =>
    rewooGenResponse gen contextInfo desc task
      ("Your Subtask: " ++ workerTasks.getD i "" ++ "\n\nYou are Worker " ++
        toString (i + 1) ++
        ". Solve your assigned subtask through pure reasoning, without using external tools or observations. Think step by step.")
      ("Worker " ++ toString (i + 1)))
  let solution := rewooGenResponse gen contextInfo desc task
    (rewooFormatResults workerResults ++
      "\nYou are the Solver. Integrate the results from all workers to provide a comprehensive solution to the main task.")
    "Solver"
  let steps :=
    [{ stype := "plan", content := StepContent.str plan },
     { stype := "worker_tasks", content := StepContent.strs workerTasks }] ++
    (List.range workerResults.length).map (fun i =>
      { stype := "worker_" ++ toString (i + 1) ++ "_result",
        content := StepContent.str (workerResults.getD i "") }) ++
    [{ stype := "solution", content := StepContent.str solution }]
  { agent_id := agentId, output := solution, intermediate_steps := steps,
    metadata := [("architecture", .s "rewoo"), ("reasoning_depth", .n reasoningDepth),
                 ("reasoning_style", .s reasoningStyle), ("num_workers", .n numWorkers)] }

/-! ## `BaseAgent.run` and `AgentResult.format_output` -/

/-- The value `BaseAgent.run` returns: the formatted display string by
default (`format_output=True`), or the result record when formatting is
disabled. -/
inductive RunOutput where
  | result : AgentResultE → RunOutput
  | text : String → RunOutput

/-- Whether `run` returned the result record rather than a display string. -/
def RunOutput.isResult : RunOutput → Bool
  | .result _ => true
  | .text _ => false

/-- Python `str.upper()` (ASCII). -/
def pyUpper (s : String) : String := ⟨s.data.map Char.toUpper⟩

/-- `metadata.get(key, default)` for string display. -/
def metaGetStr (m : List (String × MetaV)) (k dflt : String) : String :=
  match alookup m k with
  | some (.s v) => v
  | some (.n v) => toString v
  | none => dflt

/-- `metadata.get('iterations', 0)` rendered for display. -/
def metaGetNum (m : List (String × MetaV)) (k : String) (dflt : Nat) : String :=
  match alookup m k with
  | some (.s v) => v
  | some (.n v) => toString v
  | none => toString dflt

/-- Split after each newline, keeping the newline (`str.splitlines(True)`
restricted to `\n`, the only line break the agents produce). -/
def splitLinesKeep : List Char → List (List Char)
  | [] => []
  | c :: rest =>
      if c == '\n' then [c] :: splitLinesKeep rest
      else
        match splitLinesKeep rest with
        | [] => [[c]]
        | ln :: lns => (c :: ln) :: lns

/-- `textwrap.indent(text, '  ')`: prefix every line that has
non-whitespace content. -/
def indentTwo (s : String) : String :=
  String.join ((splitLinesKeep s.data).map (fun ln =>
    if pyStripChars ln = [] then (⟨ln⟩ : String) else "  " ++ (⟨ln⟩ : String)))

/-- The rendered content of one step (lists joined with newlines). -/
def stepContentStr : StepContent → String
  | .str s => s
  | .strs l => joinNL l

/-- Python truthiness of a step's content. -/
def stepContentTruthy : StepContent → Bool
  | .str s => !(s == "")
  | .strs l => !l.isEmpty

/-- `AgentResult.format_output`. -/
def formatOutput (r : AgentResultE) (verbose : Bool) : String :=
  let header := "Result from " ++ pyUpper (metaGetStr r.metadata "architecture" "Agent") ++
    " Agent:\n" ++ (⟨List.replicate 80 '='⟩ : String) ++ "\n\n" ++
    "ANSWER:\n" ++ r.output ++ "\n\n"
  let thinking :=
    if verbose then
      "THINKING PROCESS:\n" ++ (⟨List.replicate 40 '-'⟩ : String) ++ "\n" ++
      String.join (r.intermediate_steps.map (fun st =>
        if !(pyUpper st.stype == "") && stepContentTruthy st.content then
          pyUpper st.stype ++ ":\n" ++ indentTwo (stepContentStr st.content) ++ "\n\n"
        else ""))
    else ""
  header ++ thinking ++ (⟨List.replicate 40 '-'⟩ : String) ++ "\n" ++
    "Iterations: " ++ metaGetNum r.metadata "iterations" 0 ++ "\n"

/-- `BaseAgent.run`: reset the (unmodelled) state, run the
architecture-specific `execute`, and return the formatted display string or
— only when the caller passes `format_output=False` — the result record. -/
def runAgent (execF : String → AgentResultE) (verbose formatOut : Bool)
    (task : String) : RunOutput :=
  let result := execF task
  if formatOut then .text (formatOutput result verbose) else .result result

/-! ## Concrete workflow fixtures used by witnesses -/

/-- A constant agent for the concrete workflows. -/
def agConst : WAgent String := fun _ _ => "out"

/-- Node `A` of the cyclic two-node graph (`A → [B]`). -/
def nodeCycA : WNode String :=
  { id := "A", agent_id := "ag", name := "A", description := "",
    dependencies := ["B"], condition := none, transform_input := none,
    transform_output := none }

/-- Node `B` of the cyclic two-node graph (`B → [A]`). -/
def nodeCycB : WNode String :=
  { id := "B", agent_id := "ag", name := "B", description := "",
    dependencies := ["A"], condition := none, transform_input := none,
    transform_output := none }

/-- The cyclic workflow `A → [B]`, `B → [A]` of the spec's test scenario. -/
def wfCycleAB : Workflow String :=
  { name := "cyc", description := "", nodes := [nodeCycA, nodeCycB],
    agents := [("ag", agConst)] }

/-- Node `A` (no dependencies) of the `A, B→[A], C→[A,B]` graph. -/
def nodeTopA : WNode String :=
  { id := "A", agent_id := "ag", name := "A", description := "",
    dependencies := [], condition := none, transform_input := none,
    transform_output := none }

/-- Node `B→[A]`. -/
def nodeTopB : WNode String :=
  { id := "B", agent_id := "ag", name := "B", description := "",
    dependencies := ["A"], condition := none, transform_input := none,
    transform_output := none }

/-- Node `C→[A,B]`. -/
def nodeTopC : WNode String :=
  { id := "C", agent_id := "ag", name := "C", description := "",
    dependencies := ["A", "B"], condition := none, transform_input := none,
    transform_output := none }

/-- The acyclic workflow `A, B→[A], C→[A,B]` of the spec's test scenario. -/
def wfABC : Workflow String :=
  { name := "abc", description := "", nodes := [nodeTopA, nodeTopB, nodeTopC],
    agents := [("ag", agConst)] }

/-- Node `X` with a guard predicate that always evaluates false. -/
def nodeGuardX : WNode String :=
  { id := "X", agent_id := "ag", name := "x", description := "",
    dependencies := [], condition := some (fun _ => false),
    transform_input := none, transform_output := none }

/-- Node `Y→[X]`, depending on the guarded node. -/
def nodeGuardY : WNode String :=
  { id := "Y", agent_id := "ag", name := "y", description := "",
    dependencies := ["X"], condition := none, transform_input := none,
    transform_output := none }

/-- The guard-skip workflow: `X` is skipped, `Y` depends on it. -/
def wfGuard : Workflow String :=
  { name := "g", description := "", nodes := [nodeGuardX, nodeGuardY],
    agents := [("ag", agConst)] }

/-- An empty workflow, used to exercise `add_node`. -/
def wfEmpty : Workflow String :=
  { name := "e", description := "", nodes := [], agents := [] }

/-- A tool whose execution always raises, for the capability-error witness. -/
def c8tool : MTool String :=
  { name := "Calc", description := "calculator", exec := fun _ => .error "boom" }

/-! # Theorems -/

/-! ## Association list lemmas -/

theorem alookup_aset_self {V : Type} (m : List (String × V)) (k : String) (v : V) :
    alookup (aset m k v) k = some v := by
  induction m with
  | nil => simp [aset, alookup]
  | cons kv rest ih =>
      obtain ⟨k', v'⟩ := kv
      by_cases h : k' = k <;> simp [aset, alookup, h, ih]

theorem alookup_aset_other {V : Type} (m : List (String × V)) (k : String) (v : V)
    (k' : String) (h : k' ≠ k) : alookup (aset m k v) k' = alookup m k' := by
  induction m with
  | nil =>
      have hne : ¬ k = k' := fun h1 => h h1.symm
      simp [aset, alookup, hne]
  | cons kv rest ih =>
      obtain ⟨a, b⟩ := kv
      by_cases ha : a = k
      · subst ha
        have hne : ¬ a = k' := fun h1 => h h1.symm
        simp [aset, alookup, hne]
      · simp [aset, alookup, ha, ih]

/-! ## `findNode` lemmas -/

theorem findNode_some {V : Type} {nodes : List (WNode V)} {nid : String}
    {n : WNode V} (h : findNode nodes nid = some n) : n ∈ nodes ∧ n.id = nid := by
  refine ⟨List.mem_of_find?_eq_some h, ?_⟩
  have h2 := List.find?_some h
  simpa using h2

theorem findNode_mem_ids {V : Type} {nodes : List (WNode V)} {nid : String}
    {n : WNode V} (h : findNode nodes nid = some n) : nid ∈ nodeIds nodes := by
  obtain ⟨hm, hid⟩ := findNode_some h
  exact hid ▸ List.mem_map_of_mem _ hm

theorem findNode_isSome_of_mem_ids {V : Type} {nodes : List (WNode V)} {nid : String}
    (h : nid ∈ nodeIds nodes) : ∃ n, findNode nodes nid = some n := by
  obtain ⟨n, hn, hid⟩ := List.mem_map.mp h
  have : (findNode nodes nid).isSome := by
    rw [findNode, List.find?_isSome]
    exact ⟨n, hn, by simp [hid]⟩
  obtain ⟨m, hm⟩ := Option.isSome_iff_exists.mp this
  exact ⟨m, hm⟩

theorem findNode_none_of_not_mem_ids {V : Type} {nodes : List (WNode V)} {nid : String}
    (h : nid ∉ nodeIds nodes) : findNode nodes nid = none := by
  cases hf : findNode nodes nid with
  | none => rfl
  | some n => exact absurd (findNode_mem_ids hf) h

/-! ## Soundness of the execution-order traversal -/

theorem VPost_rfl {V : Type} (nodes : List (WNode V)) (s : OState) :
    VPost nodes s [] s := by
  refine ⟨rfl, fun x hx => hx, ?_, fun x hx => Or.inl hx, fun h => h, fun _ h => h, fun _ h => h⟩
  intro x hx
  exact absurd hx (List.not_mem_nil x)

theorem append_singleton_split {α : Type} {l l1 l2 : List α} {x a : α}
    (h : l ++ [a] = l1 ++ x :: l2) :
    (l1 = l ∧ x = a ∧ l2 = []) ∨ ∃ l2', l = l1 ++ x :: l2' ∧ l2 = l2' ++ [a] := by
  rcases l2.eq_nil_or_concat with rfl | ⟨l2', b, rfl⟩
  · left
    have hlen : ([a] : List α).length = ([x] : List α).length := by simp
    obtain ⟨h1, h2⟩ := List.append_inj' h hlen
    simp at h2
    exact ⟨h1.symm, h2.symm, rfl⟩
  · right
    rw [List.concat_eq_append] at h
    rw [show l1 ++ x :: (l2' ++ [b]) = (l1 ++ x :: l2') ++ [b] by simp] at h
    have hlen : ([a] : List α).length = ([b] : List α).length := by simp
    obtain ⟨h1, h2⟩ := List.append_inj' h hlen
    simp at h2
    subst h2
    exact ⟨l2', h1, by simp [List.concat_eq_append]⟩

theorem depsEarlier_nil {V : Type} (nodes : List (WNode V)) :
    depsEarlier nodes [] := by
  intro l1 x l2 h
  exact absurd h.symm (List.append_ne_nil_of_right_ne_nil l1 (List.cons_ne_nil x l2))

theorem depsEarlier_append {V : Type} {nodes : List (WNode V)} {l : List String}
    {nid : String} {n : WNode V} (hde : depsEarlier nodes l)
    (hfn : findNode nodes nid = some n) (hsub : ∀ d ∈ n.dependencies, d ∈ l) :
    depsEarlier nodes (l ++ [nid]) := by
  intro l1 x l2 hsplit m hm d hd
  rcases append_singleton_split hsplit with ⟨h1, h2, _⟩ | ⟨l2', hl, _⟩
  · subst h1 h2
    rw [hfn] at hm
    cases hm
    exact hsub d hd
  · exact hde l1 x l2' hl m hm d hd

theorem visResSync_push {s1 : OState} (sync1 : visResSync s1) (nid : String)
    (t : List String) :
    visResSync ⟨t, nid :: s1.visited, s1.result ++ [nid]⟩ := by
  intro x
  simp only
  constructor
  · intro hx
    rcases List.mem_cons.mp hx with rfl | hx
    · exact List.mem_append.mpr (Or.inr (List.mem_singleton_self x))
    · exact List.mem_append.mpr (Or.inl ((sync1 x).mp hx))
  · intro hx
    rcases List.mem_append.mp hx with hx | hx
    · exact List.mem_cons_of_mem _ ((sync1 x).mpr hx)
    · rw [List.mem_singleton] at hx
      subst hx
      exact List.mem_cons_self _ _

theorem VPost_step {V : Type} {nodes : List (WNode V)} {s s1 s' : OState}
    {nid : String} {rest : List String} {n : WNode V}
    (htemp : nid ∉ s.temp) (hvis : nid ∉ s.visited)
    (hfn : findNode nodes nid = some n)
    (P1 : VPost nodes ⟨nid :: s.temp, s.visited, s.result⟩ n.dependencies s1)
    (P2 : VPost nodes ⟨s1.temp.erase nid, nid :: s1.visited, s1.result ++ [nid]⟩ rest s') :
    VPost nodes s (nid :: rest) s' := by
  obtain ⟨T1, M1, C1, N1, Y1, D1, E1⟩ := P1
  obtain ⟨T2, M2, C2, N2, Y2, D2, E2⟩ := P2
  simp only at T1 M1 C1 N1 Y1 D1 E1 T2 M2 C2 N2 Y2 D2 E2
  have hids : nid ∈ nodeIds nodes := findNode_mem_ids hfn
  have hT : s'.temp = s.temp := by
    rw [T2, T1, List.erase_cons_head]
  have syncA : visResSync (⟨nid :: s.temp, s.visited, s.result⟩ : OState) ↔ visResSync s :=
    Iff.rfl
  have nidNotVis1 : nid ∉ s1.visited := by
    intro hmem
    rcases N1 nid hmem with h | h
    · exact hvis h
    · exact h.1 (List.mem_cons_self nid s.temp)
  refine ⟨hT, ?_, ?_, ?_, ?_, ?_, ?_⟩
  · intro x hx
    exact M2 x (List.mem_cons_of_mem nid (M1 x hx))
  · intro x hx
    rcases List.mem_cons.mp hx with rfl | hx
    · exact M2 x (List.mem_cons_self x s1.visited)
    · exact C2 x hx
  · intro x hx
    rcases N2 x hx with hx2 | hx2
    · rcases List.mem_cons.mp hx2 with rfl | hx2
      · exact Or.inr ⟨htemp, hids⟩
      · rcases N1 x hx2 with h | h
        · exact Or.inl h
        · exact Or.inr ⟨fun hmem => h.1 (List.mem_cons_of_mem nid hmem), h.2⟩
    · rw [T1, List.erase_cons_head] at hx2
      exact Or.inr hx2
  · intro hsync
    have sync1 : visResSync s1 := Y1 hsync
    exact Y2 (visResSync_push sync1 nid _)
  · intro hsync hnd
    have sync1 : visResSync s1 := Y1 hsync
    have nd1 : s1.result.Nodup := D1 hsync hnd
    have hnid1 : nid ∉ s1.result := fun hmem => nidNotVis1 ((sync1 nid).mpr hmem)
    have nd2 : (s1.result ++ [nid]).Nodup := by
      rw [List.nodup_append]
      exact ⟨nd1, List.nodup_singleton nid, by
        intro x hx hx2
        rw [List.mem_singleton] at hx2
        subst hx2
        exact hnid1 hx⟩
    exact D2 (visResSync_push sync1 nid _) nd2
  · intro hsync hde
    have sync1 : visResSync s1 := Y1 hsync
    have de1 : depsEarlier nodes s1.result := E1 hsync hde
    have hsub : ∀ d ∈ n.dependencies, d ∈ s1.result :=
      fun d hd => (sync1 d).mp (C1 d hd)
    have de2 : depsEarlier nodes (s1.result ++ [nid]) :=
      depsEarlier_append de1 hfn hsub
    exact E2 (visResSync_push sync1 nid _) de2

theorem VPost_skip {V : Type} {nodes : List (WNode V)} {s s' : OState}
    {nid : String} {rest : List String} (hvis : nid ∈ s.visited)
    (P : VPost nodes s rest s') : VPost nodes s (nid :: rest) s' := by
  obtain ⟨T, M, C, N, Y, D, E⟩ := P
  refine ⟨T, M, ?_, N, Y, D, E⟩
  intro x hx
  rcases List.mem_cons.mp hx with rfl | hx
  · exact M x hvis
  · exact C x hx

theorem visitLevel_sound {V : Type} (nodes : List (WNode V))
    (vd : OState → List String → Except String OState)
    (hvd : ∀ s l s', vd s l = .ok s' → VPost nodes s l s') :
    ∀ (todo : List String) (s s' : OState),
      visitLevel nodes vd s todo = .ok s' → VPost nodes s todo s' := by
  intro todo
  induction todo with
  | nil =>
      intro s s' h
      simp only [visitLevel] at h
      cases h
      exact VPost_rfl nodes s
  | cons nid rest ih =>
      intro s s' h
      simp only [visitLevel] at h
      by_cases htemp : nid ∈ s.temp
      · rw [if_pos htemp] at h
        cases h
      · rw [if_neg htemp] at h
        by_cases hvis : nid ∈ s.visited
        · rw [if_pos hvis] at h
          exact VPost_skip hvis (ih s s' h)
        · rw [if_neg hvis] at h
          cases hfn : findNode nodes nid with
          | none => simp only [hfn] at h; exact Except.noConfusion h
          | some n =>
              simp only [hfn] at h
              cases h1 : vd ⟨nid :: s.temp, s.visited, s.result⟩ n.dependencies with
              | error e => rw [h1] at h; exact Except.noConfusion h
              | ok s1 =>
                  rw [h1] at h
                  exact VPost_step htemp hvis hfn (hvd _ _ _ h1) (ih _ _ h)

theorem visitFuel_sound {V : Type} (nodes : List (WNode V)) :
    ∀ (fuel : Nat) (todo : List String) (s s' : OState),
      visitFuel nodes fuel s todo = .ok s' → VPost nodes s todo s' := by
  intro fuel
  induction fuel with
  | zero =>
      intro todo s s' h
      simp only [visitFuel] at h
      cases todo with
      | nil => simp at h; cases h; exact VPost_rfl nodes s
      | cons a l => simp [List.isEmpty] at h
  | succ fuel ih =>
      intro todo s s' h
      exact visitLevel_sound nodes (visitFuel nodes fuel) (fun s l s' => ih l s s') todo s s' h

theorem getExecutionOrder_sound {V : Type} {nodes : List (WNode V)}
    {order : List String} (h : getExecutionOrder nodes = .ok order) :
    order.Nodup ∧ (∀ x, x ∈ order ↔ x ∈ nodeIds nodes) ∧ depsEarlier nodes order := by
  rw [getExecutionOrder] at h
  cases hv : visitFuel nodes (nodes.length + 1) ⟨[], [], []⟩ (nodeIds nodes) with
  | error e => rw [hv] at h; cases h
  | ok s' =>
      rw [hv] at h
      simp only [Except.map] at h
      cases h
      obtain ⟨T, M, C, N, Y, D, E⟩ := visitFuel_sound nodes (nodes.length + 1) (nodeIds nodes) ⟨[], [], []⟩ s' hv
      have sync0 : visResSync (⟨[], [], []⟩ : OState) := fun x => Iff.rfl
      have sync' : visResSync s' := Y sync0
      refine ⟨D sync0 List.nodup_nil, ?_, E sync0 (depsEarlier_nil nodes)⟩
      intro x
      constructor
      · intro hx
        rcases N x ((sync' x).mpr hx) with hx2 | hx2
        · exact absurd hx2 (List.not_mem_nil x)
        · exact hx2.2
      · intro hx
        exact (sync' x).mp (C x hx)

/-! ## Totality of the execution-order traversal on valid graphs -/

theorem chainReach {α : Type} {R : α → α → Prop} :
    ∀ (l : List α) (t0 : α), List.Chain' (fun a b => R b a) (t0 :: l) →
      ∀ x ∈ t0 :: l, Relation.ReflTransGen R x t0 := by
  intro l
  induction l with
  | nil =>
      intro t0 _ x hx
      rw [List.mem_singleton] at hx
      subst hx
      exact Relation.ReflTransGen.refl
  | cons t1 ts ih =>
      intro t0 hchain x hx
      rw [List.chain'_cons] at hchain
      rcases List.mem_cons.mp hx with rfl | hx
      · exact Relation.ReflTransGen.refl
      · exact Relation.ReflTransGen.tail (ih t1 hchain.2 x hx) hchain.1

theorem visitLevel_total {V : Type} (nodes : List (WNode V))
    (hac : ¬ hasCycleRel nodes) (hwf : wellFormedDeps nodes)
    (vd : OState → List String → Except String OState) (f : Nat)
    (hvdt : ∀ s l, BPre nodes f s l → ∃ s', vd s l = .ok s')
    (hvds : ∀ s l s', vd s l = .ok s' → VPost nodes s l s') :
    ∀ (todo : List String) (s : OState), BPre nodes (f + 1) s todo →
      ∃ s', visitLevel nodes vd s todo = .ok s' := by
  intro todo
  induction todo with
  | nil =>
      intro s _
      exact ⟨s, rfl⟩
  | cons nid rest ih =>
      intro s hpre
      obtain ⟨hids, hlink, hchain, hnd, hsub, hfuel⟩ := hpre
      by_cases htemp : nid ∈ s.temp
      · exfalso
        cases hT : s.temp with
        | nil => rw [hT] at htemp; exact List.not_mem_nil nid htemp
        | cons t0 ts =>
            rw [hT] at htemp hchain
            have hstep : dependsOn nodes t0 nid := by
              have := hlink t0 (by rw [hT]; rfl)
              exact this nid (List.mem_cons_self nid rest)
            have hreach : Relation.ReflTransGen (dependsOn nodes) nid t0 :=
              chainReach ts t0 hchain nid htemp
            exact hac ⟨nid, Relation.TransGen.tail' hreach hstep⟩
      · by_cases hvis : nid ∈ s.visited
        · obtain ⟨s', hs'⟩ := ih s ⟨fun x hx => hids x (List.mem_cons_of_mem nid hx),
            fun t ht x hx => hlink t ht x (List.mem_cons_of_mem nid hx),
            hchain, hnd, hsub, hfuel⟩
          exact ⟨s', by rw [visitLevel, if_neg htemp, if_pos hvis]; exact hs'⟩
        · have hin : nid ∈ nodeIds nodes := hids nid (List.mem_cons_self nid rest)
          obtain ⟨n, hfn⟩ := findNode_isSome_of_mem_ids hin
          have hmem : n ∈ nodes := (findNode_some hfn).1
          have hdep : ∀ x ∈ n.dependencies, dependsOn nodes nid x :=
            fun x hx => ⟨n, hfn, hx⟩
          have hpre1 : BPre nodes f ⟨nid :: s.temp, s.visited, s.result⟩ n.dependencies := by
            refine ⟨fun x hx => hwf n hmem x hx, ?_, ?_, ?_, ?_, ?_⟩
            · intro t ht x hx
              simp only [List.head?] at ht
              cases ht
              exact hdep x hx
            · simp only
              cases hT : s.temp with
              | nil => exact List.chain'_singleton nid
              | cons t0 ts =>
                  rw [hT] at hchain
                  refine List.chain'_cons.mpr ⟨?_, hchain⟩
                  have := hlink t0 (by rw [hT]; rfl)
                  exact this nid (List.mem_cons_self nid rest)
            · exact List.nodup_cons.mpr ⟨htemp, hnd⟩
            · intro x hx
              rcases List.mem_cons.mp hx with rfl | hx
              · exact hin
              · exact hsub x hx
            · simp only [List.length_cons]
              omega
          obtain ⟨s1, h1⟩ := hvdt _ _ hpre1
          have P1 := hvds _ _ _ h1
          have T1 : s1.temp = nid :: s.temp := P1.1
          have hs2temp : s1.temp.erase nid = s.temp := by
            rw [T1, List.erase_cons_head]
          have hpre2 : BPre nodes (f + 1)
              ⟨s1.temp.erase nid, nid :: s1.visited, s1.result ++ [nid]⟩ rest := by
            refine ⟨fun x hx => hids x (List.mem_cons_of_mem nid hx), ?_, ?_, ?_, ?_, ?_⟩
            · intro t ht x hx
              simp only [hs2temp] at ht
              exact hlink t ht x (List.mem_cons_of_mem nid hx)
            · simp only [hs2temp]
              exact hchain
            · simp only [hs2temp]
              exact hnd
            · simp only [hs2temp]
              exact hsub
            · simp only [hs2temp]
              exact hfuel
          obtain ⟨s', h2⟩ := ih _ hpre2
          refine ⟨s', ?_⟩
          rw [visitLevel, if_neg htemp, if_neg hvis]
          simp only [hfn, h1]
          exact h2

theorem visitFuel_total {V : Type} (nodes : List (WNode V))
    (hac : ¬ hasCycleRel nodes) (hwf : wellFormedDeps nodes) :
    ∀ (fuel : Nat) (todo : List String) (s : OState), BPre nodes fuel s todo →
      ∃ s', visitFuel nodes fuel s todo = .ok s' := by
  intro fuel
  induction fuel with
  | zero =>
      intro todo s hpre
      obtain ⟨hids, _, _, hnd, hsub, hfuel⟩ := hpre
      cases todo with
      | nil => exact ⟨s, rfl⟩
      | cons a l =>
          exfalso
          have hle : s.temp.length ≤ (nodeIds nodes).length :=
            (List.subperm_of_subset hnd hsub).length_le
          omega
  | succ fuel ih =>
      intro todo s hpre
      exact visitLevel_total nodes hac hwf (visitFuel nodes fuel) fuel
        (fun s l hp => ih l s hp)
        (fun s l s' h => visitFuel_sound nodes fuel l s s' h) todo s hpre

theorem getExecutionOrder_total {V : Type} {nodes : List (WNode V)}
    (hwf : wellFormedDeps nodes) (hac : ¬ hasCycleRel nodes) :
    ∃ order, getExecutionOrder nodes = .ok order := by
  have hpre : BPre nodes (nodes.length + 1) ⟨[], [], []⟩ (nodeIds nodes) := by
    refine ⟨fun x hx => hx, ?_, List.chain'_nil, List.nodup_nil, ?_, ?_⟩
    · intro t ht
      cases ht
    · intro x hx
      exact absurd hx (List.not_mem_nil x)
    · simp [nodeIds]
  obtain ⟨s', hs'⟩ := visitFuel_total nodes hac hwf (nodes.length + 1) (nodeIds nodes) ⟨[], [], []⟩ hpre
  exact ⟨s'.result, by rw [getExecutionOrder, hs']; rfl⟩

/-! ## A topological order certifies acyclicity -/

theorem indexOf_lt_of_dependsOn {V : Type} {nodes : List (WNode V)}
    {order : List String} (hnd : order.Nodup)
    (hmem : ∀ x, x ∈ order ↔ x ∈ nodeIds nodes)
    (hde : depsEarlier nodes order) {a b : String}
    (h : dependsOn nodes a b) : order.indexOf b < order.indexOf a := by
  obtain ⟨n, hfn, hbd⟩ := h
  have ha : a ∈ order := (hmem a).mpr (findNode_mem_ids hfn)
  obtain ⟨l1, l2, horder⟩ := List.append_of_mem ha
  have hb : b ∈ l1 := hde l1 a l2 horder n hfn b hbd
  have hanotl1 : a ∉ l1 := by
    rw [horder] at hnd
    intro hmem1
    rcases List.nodup_append.mp hnd with ⟨_, _, hdisj⟩
    exact hdisj hmem1 (List.mem_cons_self a l2)
  rw [horder, List.indexOf_append_of_mem hb, List.indexOf_append_of_not_mem hanotl1,
    List.indexOf_cons_self]
  have : l1.indexOf b < l1.length := List.indexOf_lt_length.mpr hb
  omega

theorem topo_acyclic {V : Type} {nodes : List (WNode V)} {order : List String}
    (hnd : order.Nodup) (hmem : ∀ x, x ∈ order ↔ x ∈ nodeIds nodes)
    (hde : depsEarlier nodes order) : ¬ hasCycleRel nodes := by
  rintro ⟨a, htg⟩
  have key : ∀ x y, Relation.TransGen (dependsOn nodes) x y →
      order.indexOf y < order.indexOf x := by
    intro x y h
    induction h with
    | single h => exact indexOf_lt_of_dependsOn hnd hmem hde h
    | tail _ h2 ih => exact lt_trans (indexOf_lt_of_dependsOn hnd hmem hde h2) ih
  exact absurd (key a a htg) (lt_irrefl _)

theorem acyclic_of_rank {V : Type} {nodes : List (WNode V)} (f : String → Nat)
    (hf : ∀ a b, dependsOn nodes a b → f b < f a) : ¬ hasCycleRel nodes := by
  rintro ⟨a, htg⟩
  have key : ∀ x y, Relation.TransGen (dependsOn nodes) x y → f y < f x := by
    intro x y h
    induction h with
    | single h => exact hf _ _ h
    | tail _ h2 ih => exact lt_trans (hf _ _ h2) ih
  exact absurd (key a a htg) (lt_irrefl _)

/-! ## `execute` fails fast on invalid graphs -/

theorem checkNodeDeps_err {V : Type} (nodes : List (WNode V)) (nm : String) :
    ∀ (ds : List String) (d : String), d ∈ ds → d ∉ nodeIds nodes →
      ∃ msg, checkNodeDeps nodes nm ds = .error msg := by
  intro ds
  induction ds with
  | nil => intro d hd _; cases hd
  | cons d' ds ih =>
      intro d hd hnot
      by_cases hs : (findNode nodes d').isSome
      · rcases List.mem_cons.mp hd with rfl | hd2
        · exfalso
          obtain ⟨n, hn⟩ := Option.isSome_iff_exists.mp hs
          exact hnot (findNode_mem_ids hn)
        · obtain ⟨msg, hmsg⟩ := ih d hd2 hnot
          exact ⟨msg, by simp only [checkNodeDeps]; rw [if_pos hs]; exact hmsg⟩
      · exact ⟨_, by simp only [checkNodeDeps]; rw [if_neg hs]⟩

theorem checkDeps_err {V : Type} (nodes : List (WNode V)) :
    ∀ (nds : List (WNode V)) (n : WNode V), n ∈ nds →
      (∃ d ∈ n.dependencies, d ∉ nodeIds nodes) →
      ∃ msg, checkDeps nodes nds = .error msg := by
  intro nds
  induction nds with
  | nil => intro n hn _; cases hn
  | cons m rest ih =>
      intro n hn hbad
      cases hch : checkNodeDeps nodes m.name m.dependencies with
      | error e => exact ⟨e, by simp only [checkDeps]; rw [hch]; rfl⟩
      | ok u =>
          rcases List.mem_cons.mp hn with rfl | hn2
          · obtain ⟨d, hd, hnot⟩ := hbad
            obtain ⟨msg, hmsg⟩ := checkNodeDeps_err nodes n.name n.dependencies d hd hnot
            rw [hmsg] at hch
            cases hch
          · obtain ⟨msg, hmsg⟩ := ih n hn2 hbad
            refine ⟨msg, ?_⟩
            simp only [checkDeps]
            rw [hch]
            cases u
            exact hmsg

theorem validate_err_of_dangling {V : Type} (w : Workflow V)
    (h : danglingDep w.nodes) : ∃ msg, validate w = .error msg := by
  obtain ⟨n, hn, d, hd, hnot⟩ := h
  cases hA : checkAgents w.agents w.nodes with
  | error e => exact ⟨e, by simp only [validate]; rw [hA]; rfl⟩
  | ok u =>
      obtain ⟨msg, hmsg⟩ := checkDeps_err w.nodes w.nodes n hn ⟨d, hd, hnot⟩
      refine ⟨msg, ?_⟩
      simp only [validate]
      rw [hA]
      cases u
      rw [hmsg]
      rfl

theorem execute_err_of_dangling {V : Type} (w : Workflow V)
    (input : List (String × V)) (h : danglingDep w.nodes) :
    ∃ msg, w.execute input = .error msg := by
  obtain ⟨msg, hval⟩ := validate_err_of_dangling w h
  refine ⟨msg, ?_⟩
  simp only [Workflow.execute]
  rw [hval]
  rfl

theorem execute_err_of_cycle {V : Type} (w : Workflow V)
    (input : List (String × V)) (h : hasCycleRel w.nodes) :
    ∃ msg, w.execute input = .error msg := by
  cases hv : validate w with
  | error e => exact ⟨e, by simp only [Workflow.execute]; rw [hv]; rfl⟩
  | ok u =>
      cases ho : getExecutionOrder w.nodes with
      | error e =>
          refine ⟨e, ?_⟩
          simp only [Workflow.execute]
          rw [hv]
          cases u
          rw [ho]
          rfl
      | ok order =>
          exfalso
          obtain ⟨hnd, hmem, hde⟩ := getExecutionOrder_sound ho
          exact topo_acyclic hnd hmem hde h

/-! ## Claim C1 -/

/-- C1: for every workflow and initial input, `Workflow.execute` validates the
whole graph before running any node: if some node lists a dependency id not
present in the node set, or some node transitively depends on itself,
`execute` returns an error.  On this error path the node-execution fold of
`execute` is never entered, so no node's bound agent is invoked and no entry
is written to the results mapping (the error result carries no results
mapping at all, and the statement holds for arbitrary bound agents). -/
theorem C1_execute_fails_fast {V : Type} (w : Workflow V)
    (input : List (String × V))
    (h : danglingDep w.nodes ∨ hasCycleRel w.nodes) :
    ∃ msg, w.execute input = Except.error msg := by
  rcases h with h | h
  · exact execute_err_of_dangling w input h
  · exact execute_err_of_cycle w input h

/-- Witness for C1 at the concrete cyclic workflow `A → [B]`, `B → [A]`. -/
theorem C1_execute_fails_fast_witness :
    ∃ msg, wfCycleAB.execute [] = Except.error msg := by
  have hAB : dependsOn wfCycleAB.nodes "A" "B" := ⟨nodeCycA, rfl, by simp [nodeCycA]⟩
  have hBA : dependsOn wfCycleAB.nodes "B" "A" := ⟨nodeCycB, rfl, by simp [nodeCycB]⟩
  exact C1_execute_fails_fast wfCycleAB []
    (Or.inr ⟨"A", Relation.TransGen.tail (Relation.TransGen.single hAB) hBA⟩)

/-! ## Claim C2 -/

/-- C2: for every workflow whose dependency ids all exist and whose dependency
relation is acyclic, `_get_execution_order` succeeds and returns a topological
order: it contains every node id exactly once (no duplicates, and membership
coincides with the node set), and each node appears only after all of its
dependencies. -/
theorem C2_execution_order_topological {V : Type} (nodes : List (WNode V))
    (hwf : wellFormedDeps nodes) (hac : ¬ hasCycleRel nodes) :
    ∃ order, getExecutionOrder nodes = Except.ok order ∧ order.Nodup ∧
      (∀ x, x ∈ order ↔ x ∈ nodeIds nodes) ∧ depsEarlier nodes order := by
  obtain ⟨order, ho⟩ := getExecutionOrder_total hwf hac
  obtain ⟨hnd, hmem, hde⟩ := getExecutionOrder_sound ho
  exact ⟨order, ho, hnd, hmem, hde⟩

theorem wfABC_wf : wellFormedDeps wfABC.nodes := by
  intro n hn d hd
  simp only [wfABC, List.mem_cons, List.not_mem_nil, or_false] at hn
  rcases hn with rfl | rfl | rfl
  · simp [nodeTopA] at hd
  · simp only [nodeTopB, List.mem_singleton] at hd
    subst hd
    simp [nodeIds, wfABC, nodeTopA]
  · simp only [nodeTopC, List.mem_cons, List.not_mem_nil, or_false] at hd
    rcases hd with rfl | rfl
    · simp [nodeIds, wfABC, nodeTopA]
    · simp [nodeIds, wfABC, nodeTopA, nodeTopB]

theorem wfABC_acyclic : ¬ hasCycleRel wfABC.nodes := by
  refine acyclic_of_rank (fun s => if s = "A" then 0 else if s = "B" then 1 else 2) ?_
  rintro a b ⟨n, hfn, hbd⟩
  obtain ⟨hmem, hid⟩ := findNode_some hfn
  simp only [wfABC, List.mem_cons, List.not_mem_nil, or_false] at hmem
  rcases hmem with rfl | rfl | rfl
  · simp [nodeTopA] at hbd
  · rw [show nodeTopB.id = "B" from rfl] at hid
    subst hid
    simp only [nodeTopB, List.mem_singleton] at hbd
    subst hbd
    simp
  · rw [show nodeTopC.id = "C" from rfl] at hid
    subst hid
    simp only [nodeTopC, List.mem_cons, List.not_mem_nil, or_false] at hbd
    rcases hbd with rfl | rfl <;> simp

/-- Witness for C2 at the concrete workflow `A, B→[A], C→[A,B]`: its
hypotheses hold, and the computed order is `[A, B, C]`. -/
theorem C2_execution_order_topological_witness :
    wellFormedDeps wfABC.nodes ∧
    (∃ order, getExecutionOrder wfABC.nodes = Except.ok order ∧ order.Nodup ∧
      (∀ x, x ∈ order ↔ x ∈ nodeIds wfABC.nodes) ∧ depsEarlier wfABC.nodes order) ∧
    getExecutionOrder wfABC.nodes = Except.ok ["A", "B", "C"] :=
  ⟨wfABC_wf, C2_execution_order_topological wfABC.nodes wfABC_wf wfABC_acyclic, rfl⟩

/-! ## Guard-skip behaviour of `execute` (claim C7) -/

theorem exbind_ok {α β : Type} (a : α) (f : α → Except String β) :
    (Except.ok a >>= f) = f a := rfl

theorem exbind_err {α β : Type} (e : String) (f : α → Except String β) :
    ((Except.error e : Except String α) >>= f) = Except.error e := rfl

theorem runNode_skip {V : Type} {w : Workflow V} {input res : List (String × V)}
    {nid : String} {node : WNode V} {c : List (String × V) → Bool}
    (hfn : findNode w.nodes nid = some node) (hcond : node.condition = some c)
    (hfalse : c (amerge input res) = false) :
    runNode w input res nid = .ok res := by
  simp only [runNode, hfn, hcond, hfalse, Bool.not_false, if_true]

theorem runNode_lookup_other {V : Type} {w : Workflow V}
    {input res res' : List (String × V)} {m k : String}
    (h : runNode w input res m = .ok res') (hk : k ≠ m) :
    alookup res' k = alookup res k := by
  simp only [runNode] at h
  cases hfn : findNode w.nodes m with
  | none => rw [hfn] at h; exact Except.noConfusion h
  | some node =>
      rw [hfn] at h
      simp only at h
      split at h
      · cases h
        rfl
      · cases hci : collectInput w.nodes res input node.dependencies with
        | error e => rw [hci, exbind_err] at h; exact Except.noConfusion h
        | ok ni =>
            rw [hci, exbind_ok] at h
            cases hag : alookup w.agents node.agent_id with
            | none => rw [hag] at h; exact Except.noConfusion h
            | some agent =>
                rw [hag] at h
                simp only [Except.ok.injEq] at h
                rw [← h]
                exact alookup_aset_other res m _ k hk

theorem foldRun_preserve {V : Type} (w : Workflow V) (input : List (String × V)) :
    ∀ (l : List String) (init res : List (String × V)),
      List.foldlM (runNode w input) init l = .ok res →
      ∀ k, k ∉ l → alookup res k = alookup init k := by
  intro l
  induction l with
  | nil =>
      intro init res h k _
      rw [List.foldlM_nil] at h
      have h' : (Except.ok init : Except String (List (String × V))) = .ok res := h
      cases h'
      rfl
  | cons m ms ih =>
      intro init res h k hk
      rw [List.foldlM_cons] at h
      cases h1 : runNode w input init m with
      | error e => rw [h1, exbind_err] at h; exact Except.noConfusion h
      | ok r1 =>
          rw [h1, exbind_ok] at h
          have hne : k ≠ m := fun he => hk (he ▸ List.mem_cons_self m ms)
          rw [ih r1 res h k (fun hm => hk (List.mem_cons_of_mem m hm))]
          exact runNode_lookup_other h1 hne

theorem collectInput_keys {V : Type} (nodes : List (WNode V))
    (res : List (String × V)) :
    ∀ (deps : List String) (inp ni : List (String × V)) (tname : String),
      collectInput nodes res inp deps = .ok ni →
      alookup inp tname = none →
      (∀ d ∈ deps, ∀ v, alookup res d = some v →
        ∀ dn, findNode nodes d = some dn → dn.name ≠ tname) →
      alookup ni tname = none := by
  intro deps
  induction deps with
  | nil =>
      intro inp ni tname h hinp _
      simp only [collectInput] at h
      cases h
      exact hinp
  | cons d ds ih =>
      intro inp ni tname h hinp hnames
      simp only [collectInput] at h
      cases hres : alookup res d with
      | none =>
          rw [hres] at h
          exact ih inp ni tname h hinp
            (fun d2 hd2 => hnames d2 (List.mem_cons_of_mem d hd2))
      | some v =>
          rw [hres] at h
          cases hdn : findNode nodes d with
          | none => rw [hdn] at h; exact Except.noConfusion h
          | some dn =>
              rw [hdn] at h
              have hne : dn.name ≠ tname :=
                hnames d (List.mem_cons_self d ds) v hres dn hdn
              have hset : alookup (aset inp dn.name v) tname = none := by
                rw [alookup_aset_other inp dn.name v tname (fun he => hne he.symm)]
                exact hinp
              exact ih _ ni tname h hset
                (fun d2 hd2 => hnames d2 (List.mem_cons_of_mem d hd2))

/-! ## Claim C7 -/

/-- C7: if a node's guard predicate evaluates false over the merge of the
initial input and the results accumulated up to the node's turn, the node is
skipped: `execute`'s final results mapping has no key for that node.
Moreover (second conjunct) the dependency-merging step never inserts any
placeholder for a dependency that is absent from the results mapping: the
merged input of a dependent has a given display-name key only if it came from
the initial input or from a present dependency with that display name. -/
theorem C7_guard_skip {V : Type} (w : Workflow V)
    (input results res1 : List (String × V)) (order o1 o2 : List String)
    (nid : String) (node : WNode V) (c : List (String × V) → Bool)
    (hex : w.execute input = .ok results)
    (hord : getExecutionOrder w.nodes = .ok order)
    (hsplit : order = o1 ++ nid :: o2)
    (h1 : List.foldlM (runNode w input) [] o1 = .ok res1)
    (hfn : findNode w.nodes nid = some node)
    (hcond : node.condition = some c)
    (hfalse : c (amerge input res1) = false) :
    alookup results nid = none ∧
    (∀ (inp res ni : List (String × V)) (deps : List String) (tname : String),
      collectInput w.nodes res inp deps = .ok ni →
      alookup inp tname = none →
      (∀ d ∈ deps, ∀ v, alookup res d = some v →
        ∀ dn, findNode w.nodes d = some dn → dn.name ≠ tname) →
      alookup ni tname = none) := by
  constructor
  · simp only [Workflow.execute] at hex
    cases hv : validate w with
    | error e => rw [hv, exbind_err] at hex; exact Except.noConfusion hex
    | ok u =>
        rw [hv, exbind_ok] at hex
        rw [hord, exbind_ok] at hex
        rw [hsplit, List.foldlM_append, h1, exbind_ok, List.foldlM_cons,
          runNode_skip hfn hcond hfalse, exbind_ok] at hex
        have hnd := (getExecutionOrder_sound hord).1
        rw [hsplit] at hnd
        obtain ⟨hnd1, hnd2, hdisj⟩ := List.nodup_append.mp hnd
        have hno1 : nid ∉ o1 := fun hm => hdisj hm (List.mem_cons_self nid o2)
        have hno2 : nid ∉ o2 := (List.nodup_cons.mp hnd2).1
        have hres1 : alookup res1 nid = none := by
          rw [foldRun_preserve w input o1 [] res1 h1 nid hno1]
          rfl
        rw [foldRun_preserve w input o2 res1 results hex nid hno2]
        exact hres1
  · intro inp res ni deps tname hci hinp hnames
    exact collectInput_keys w.nodes res deps inp ni tname hci hinp hnames

/-- Witness for C7 at a concrete workflow: node `X`'s guard is false, so the
results mapping of `execute` contains only `Y`'s entry and no `X` key. -/
theorem C7_guard_skip_witness :
    wfGuard.execute [("init", "i")] = Except.ok [("Y", "out")] ∧
    alookup [("Y", "out")] "X" = (none : Option String) := by
  refine ⟨rfl, ?_⟩
  exact (C7_guard_skip wfGuard [("init", "i")] [("Y", "out")] [] ["X", "Y"] []
    ["Y"] "X" nodeGuardX (fun _ => false) rfl rfl rfl rfl rfl rfl rfl).1

/-! ## Claim C10 -/

theorem findNode_insertNode_fresh {V : Type} :
    ∀ (nodes : List (WNode V)) (n : WNode V), n.id ∉ nodeIds nodes →
      findNode (insertNode nodes n) n.id = some n
  | [], n, _ => by simp [insertNode, findNode]
  | m :: rest, n, hfresh => by
      simp only [nodeIds, List.map_cons, List.mem_cons, not_or] at hfresh
      obtain ⟨hne, hrest⟩ := hfresh
      have hne' : ¬ m.id = n.id := fun he => hne he.symm
      simp only [insertNode, if_neg hne']
      rw [findNode, List.find?_cons_of_neg]
      · exact findNode_insertNode_fresh rest n (by simpa [nodeIds] using hrest)
      · simp [hne']

theorem mem_insertNode_self {V : Type} :
    ∀ (nodes : List (WNode V)) (n : WNode V), n ∈ insertNode nodes n
  | [], n => by simp [insertNode]
  | m :: rest, n => by
      simp only [insertNode]
      by_cases he : m.id = n.id
      · rw [if_pos he]
        exact List.mem_cons_self n rest
      · rw [if_neg he]
        exact List.mem_cons_of_mem m (mem_insertNode_self rest n)

/-- C10: `add_node` performs no graph validation.  For every workflow, agent,
name and dependency list — including dangling or cycle-forming dependency
ids — `add_node` succeeds (it is a total function), returns the generated
node id, and stores the node with exactly the given fields; a dangling
dependency is detected only later, when `execute` is called on the resulting
workflow. -/
theorem C10_addNode_no_validation {V : Type} (w : Workflow V) (agentId : String)
    (agent : WAgent V) (newId nm ds : String) (deps : List String)
    (cond : Option (List (String × V) → Bool))
    (tin : Option (List (String × V) → List (String × V)))
    (tout : Option (V → V))
    (hfresh : newId ∉ nodeIds w.nodes) :
    (w.addNode agentId agent newId nm ds deps cond tin tout).2 = newId ∧
    findNode (w.addNode agentId agent newId nm ds deps cond tin tout).1.nodes newId =
      some ⟨newId, agentId, nm, ds, deps, cond, tin, tout⟩ ∧
    ∀ input,
      (∃ d ∈ deps, d ∉ nodeIds (w.addNode agentId agent newId nm ds deps cond tin tout).1.nodes) →
      ∃ msg, (w.addNode agentId agent newId nm ds deps cond tin tout).1.execute input
        = Except.error msg := by
  have hnodes : (w.addNode agentId agent newId nm ds deps cond tin tout).1.nodes =
      insertNode w.nodes ⟨newId, agentId, nm, ds, deps, cond, tin, tout⟩ := by
    by_cases hag : (alookup w.agents agentId).isSome <;>
      simp [Workflow.addNode, hag]
  refine ⟨rfl, ?_, ?_⟩
  · rw [hnodes]
    exact findNode_insertNode_fresh w.nodes ⟨newId, agentId, nm, ds, deps, cond, tin, tout⟩ hfresh
  · intro input hdangling
    apply execute_err_of_dangling
    obtain ⟨d, hd, hnot⟩ := hdangling
    refine ⟨⟨newId, agentId, nm, ds, deps, cond, tin, tout⟩, ?_, d, hd, hnot⟩
    rw [hnodes]
    exact mem_insertNode_self w.nodes _

/-- Witness for C10: adding a node with the dangling dependency `"ghost"` to
an empty workflow succeeds and stores the node, and the defect surfaces only
on `execute`. -/
theorem C10_addNode_no_validation_witness :
    (wfEmpty.addNode "ag" agConst "N1" "n" "" ["ghost"] none none none).2 = "N1" ∧
    (∃ msg, (wfEmpty.addNode "ag" agConst "N1" "n" "" ["ghost"] none none none).1.execute []
      = Except.error msg) := by
  have h := C10_addNode_no_validation wfEmpty "ag" agConst "N1" "n" "" ["ghost"]
    none none none (by simp [wfEmpty, nodeIds])
  refine ⟨h.1, h.2.2 [] ⟨"ghost", List.mem_singleton_self "ghost", ?_⟩⟩
  simp [Workflow.addNode, wfEmpty, insertNode, nodeIds, alookup, aset]

/-! ## Claim C3 -/

/-- C3: for every valid strategy tag (one accepted by `create_parser`) and
every input string — including the empty string and text with no
recognizable labels — the created parse function is total (the embedding
never produces an error value) and returns a record whose raw-text field
equals the input string exactly. -/
theorem C3_parse_raw_preserved (architecture : String) (p : String → Parsed)
    (h : createParser architecture = some p) :
    ∀ text : String, (p text).rawResponse = text := by
  intro text
  simp only [createParser] at h
  split_ifs at h <;> (cases h; rfl)

/-- Witness for C3: the tag lookup is case-insensitive and the raw-text field
of a parse is the input. -/
theorem C3_parse_raw_preserved_witness :
    createParser "ReAct" = some (fun t => Parsed.react (reactParse t)) ∧
    Parsed.rawResponse ((fun t => Parsed.react (reactParse t)) "Thought: hi") = "Thought: hi" :=
  ⟨rfl, C3_parse_raw_preserved "ReAct" (fun t => Parsed.react (reactParse t)) rfl "Thought: hi"⟩

/-! ## Claim C4 -/

/-- C4 counterexample: in `"Action: X\nThought: later"` the `Action:` label
occurs at index 0 and the only `Thought:` label occurs later (index 10), so
the text contains an `Action: X` with no preceding `Thought:` label; yet
`ReActParser.parse` produces a group containing an action, because its three
per-field loops run over all thought matches first, then all action matches,
losing positional order. -/
theorem C4_grammar_order_counterexample :
    findPat (lit "Action:") c4text.data = some (0, 7) ∧
    findPat (lit "Thought:") c4text.data = some (10, 8) ∧
    (reactParse c4text).cycles.any (fun c => c.action.isSome) = true := by
  refine ⟨?_, ?_, ?_⟩ <;> rfl

theorem reactThought_fold_inv : ∀ (ts : List String) (cur : RCycle),
    cur.action = none → cur.observation = none →
    (ts.foldl reactThoughtStep cur).action = none ∧
    (ts.foldl reactThoughtStep cur).observation = none := by
  intro ts
  induction ts with
  | nil => intro cur h1 h2; exact ⟨h1, h2⟩
  | cons t ts ih =>
      intro cur h1 h2
      rw [List.foldl_cons]
      by_cases ht : t = ""
      · exact ih _ (by simp [reactThoughtStep, ht, h1]) (by simp [reactThoughtStep, ht, h2])
      · exact ih _ (by simp [reactThoughtStep, ht]) (by simp [reactThoughtStep, ht])

theorem reactAction_fold_inv : ∀ (as : List String) (cur : RCycle),
    cur.observation = none → (cur.action.isSome → cur.thought.isSome) →
    (as.foldl reactActionStep cur).observation = none ∧
    ((as.foldl reactActionStep cur).action.isSome →
      (as.foldl reactActionStep cur).thought.isSome) := by
  intro as
  induction as with
  | nil => intro cur h1 h2; exact ⟨h1, h2⟩
  | cons a as ih =>
      intro cur h1 h2
      rw [List.foldl_cons]
      by_cases hc : a ≠ "" ∧ cur.thought.isSome
      · exact ih _ (by simp [reactActionStep, if_pos hc, h1])
          (by simp [reactActionStep, if_pos hc]; exact hc.2)
      · rw [reactActionStep, if_neg hc]
        exact ih cur h1 h2

theorem reactAction_fold_nothought : ∀ (as : List String) (cur : RCycle),
    cur.thought = none → as.foldl reactActionStep cur = cur := by
  intro as
  induction as with
  | nil => intro cur _; rfl
  | cons a as ih =>
      intro cur h
      rw [List.foldl_cons, reactActionStep, if_neg]
      · exact ih cur h
      · rintro ⟨_, hsome⟩
        rw [h] at hsome
        simp at hsome

theorem reactObs_fold_inv : ∀ (os : List String) (st : List RCycle × RCycle),
    (∀ c ∈ st.1, (c.action.isSome → c.thought.isSome) ∧
      (c.observation.isSome → c.thought.isSome ∧ c.action.isSome)) →
    st.2.observation = none → (st.2.action.isSome → st.2.thought.isSome) →
    (∀ c ∈ (os.foldl reactObsStep st).1, (c.action.isSome → c.thought.isSome) ∧
      (c.observation.isSome → c.thought.isSome ∧ c.action.isSome)) ∧
    (os.foldl reactObsStep st).2.observation = none ∧
    ((os.foldl reactObsStep st).2.action.isSome →
      (os.foldl reactObsStep st).2.thought.isSome) := by
  intro os
  induction os with
  | nil => intro st h1 h2 h3; exact ⟨h1, h2, h3⟩
  | cons o os ih =>
      intro st h1 h2 h3
      rw [List.foldl_cons]
      obtain ⟨cys, cur⟩ := st
      by_cases hc : o ≠ "" ∧ cur.thought.isSome ∧ cur.action.isSome
      · have hstep : reactObsStep (cys, cur) o =
            (cys ++ [{ cur with observation := some o }], ({} : RCycle)) := by
          simp [reactObsStep, if_pos hc]
        rw [hstep]
        refine ih _ ?_ rfl ?_
        · intro c hcmem
          rcases List.mem_append.mp hcmem with hm | hm
          · exact h1 c hm
          · rw [List.mem_singleton] at hm
            subst hm
            exact ⟨fun _ => hc.2.1, fun _ => ⟨hc.2.1, hc.2.2⟩⟩
        · intro h
          simp at h
      · rw [reactObsStep]
        rw [if_neg hc]
        exact ih ⟨cys, cur⟩ h1 h2 h3

theorem reactObs_fold_nothought : ∀ (os : List String) (cur : RCycle),
    cur.thought = none → os.foldl reactObsStep ([], cur) = ([], cur) := by
  intro os
  induction os with
  | nil => intro cur _; rfl
  | cons o os ih =>
      intro cur h
      rw [List.foldl_cons, reactObsStep, if_neg]
      · exact ih cur h
      · rintro ⟨_, hsome, _⟩
        rw [h] at hsome
        simp at hsome

theorem findAllLabel_of_none {label : Pat} {skipWS : Bool} {terms : List Pat}
    {s : String} (h : findPat label s.data = none) :
    findAllLabel label skipWS terms s = [] := by
  rw [findAllLabel]
  simp only [findAllLabelFuel, matchLabel, h]

/-- C4 (amended): every group produced by `ReActParser.parse` satisfies
presence-closure of the grammar's predecessor fields — a group contains an
action only if it also contains a thought, and contains an observation only
if it contains both a thought and an action — and a text containing no
`Thought:` label yields no group at all.  The stronger positional-order
property of the original claim does not hold (see the counterexample): the
parser collects all thoughts, then all actions, then all observations, so an
`Action:` preceding the text's `Thought:` label can still join a group. -/
theorem C4_group_predecessor_closure (text : String) :
    (∀ c ∈ (reactParse text).cycles,
      (c.action.isSome → c.thought.isSome) ∧
      (c.observation.isSome → c.thought.isSome ∧ c.action.isSome)) ∧
    (findPat (lit "Thought:") text.data = none → (reactParse text).cycles = []) := by
  constructor
  · intro c
    simp only [reactParse]
    generalize findAllLabel (lit "Thought:") true
      [lit "Action:", lit "Observation:", lit "Final Answer:"] text = ts
    generalize findAllLabel (lit "Action:") true
      [lit "Observation:", lit "Thought:", lit "Final Answer:"] text = as
    generalize findAllLabel (lit "Observation:") true
      [lit "Thought:", lit "Action:", lit "Final Answer:"] text = os
    intro hc
    obtain ⟨ha1, ho1⟩ := reactThought_fold_inv ts {} rfl rfl
    obtain ⟨ho2, hat2⟩ := reactAction_fold_inv as (ts.foldl reactThoughtStep {}) ho1
      (fun h => by rw [ha1] at h; simp at h)
    obtain ⟨hP, hobs3, hat3⟩ := reactObs_fold_inv os
      ([], as.foldl reactActionStep (ts.foldl reactThoughtStep {}))
      (fun c hc => absurd hc (List.not_mem_nil c)) ho2 hat2
    by_cases hth :
        (os.foldl reactObsStep
          ([], as.foldl reactActionStep (ts.foldl reactThoughtStep {}))).2.thought.isSome
    · rw [if_pos hth] at hc
      rcases List.mem_append.mp hc with hm | hm
      · exact hP c hm
      · rw [List.mem_singleton] at hm
        subst hm
        exact ⟨fun _ => hth, fun hobs => by rw [hobs3] at hobs; simp at hobs⟩
    · rw [if_neg hth] at hc
      exact hP c hc
  · intro hnone
    simp only [reactParse]
    rw [findAllLabel_of_none hnone, List.foldl_nil,
      reactAction_fold_nothought _ _ rfl, reactObs_fold_nothought _ _ rfl]
    rfl

/-- Witness for C4's amended theorem: a text with no `Thought:` label
produces no group. -/
theorem C4_group_predecessor_closure_witness :
    (reactParse "no labels here").cycles = [] :=
  (C4_group_predecessor_closure "no labels here").2 rfl

/-! ## Claim C5 -/

/-- C5: the OODA and BDI termination stages signal completion exactly when
the case-insensitive substring `yes` or `complete` occurs within the first
100 characters of the stage's response; on completion the portion of the
response after a case-insensitive `final answer` marker (when present)
becomes the output, otherwise the whole (whitespace-stripped) response does;
without a completion signal the whole stripped response is the output.  Both
agents use identical logic. -/
theorem C5_completion_signal (response : String) :
    ((oodaCheckCompletion response).1 = true ↔
      (pyContains "yes" (lowerHead100 response) = true ∨
       pyContains "complete" (lowerHead100 response) = true)) ∧
    ((oodaCheckCompletion response).1 = true →
      ∀ rest, afterFinalAnswerMarker (pyStrip response) = some rest →
        (oodaCheckCompletion response).2 = rest) ∧
    ((oodaCheckCompletion response).1 = true →
      afterFinalAnswerMarker (pyStrip response) = none →
      (oodaCheckCompletion response).2 = pyStrip response) ∧
    ((oodaCheckCompletion response).1 = false →
      (oodaCheckCompletion response).2 = pyStrip response) ∧
    bdiCheckCompletion response = oodaCheckCompletion response := by
  refine ⟨?_, ?_, ?_, ?_, rfl⟩
  · simp only [oodaCheckCompletion, completionSignal]
    cases hy : pyContains "yes" (lowerHead100 response) <;>
      cases hc : pyContains "complete" (lowerHead100 response) <;>
        simp [hy, hc] <;>
          cases afterFinalAnswerMarker (pyStrip response) <;> simp
  · intro h1 rest hrest
    simp only [oodaCheckCompletion, completionSignal] at h1 ⊢
    cases hor : (pyContains "yes" (lowerHead100 response) ||
        pyContains "complete" (lowerHead100 response)) with
    | false => rw [hor] at h1; simp at h1
    | true => rw [if_pos rfl, hrest]
  · intro h1 hnone
    simp only [oodaCheckCompletion, completionSignal] at h1 ⊢
    cases hor : (pyContains "yes" (lowerHead100 response) ||
        pyContains "complete" (lowerHead100 response)) with
    | false => rw [hor] at h1; simp at h1
    | true => rw [if_pos rfl, hnone]
  · intro h1
    simp only [oodaCheckCompletion, completionSignal] at h1 ⊢
    cases hor : (pyContains "yes" (lowerHead100 response) ||
        pyContains "complete" (lowerHead100 response)) with
    | false => rw [if_neg (by simp)]
    | true =>
        rw [hor] at h1
        rw [if_pos rfl] at h1
        cases hm : afterFinalAnswerMarker (pyStrip response) <;> rw [hm] at h1 <;> simp at h1

/-- Witness for C5 at a concrete response with an early `Yes` and a
`final answer` marker. -/
theorem C5_completion_signal_witness :
    (oodaCheckCompletion "Yes. Final answer: 42").1 = true ∧
    (oodaCheckCompletion "Yes. Final answer: 42").2 = "42" := by
  have h := C5_completion_signal "Yes. Final answer: 42"
  have h1 : (oodaCheckCompletion "Yes. Final answer: 42").1 = true :=
    h.1.mpr (Or.inl rfl)
  exact ⟨h1, h.2.1 h1 "42" rfl⟩

/-! ## Claim C8 -/

/-- C8: during a cycle-controller run, a capability invocation that names an
unknown capability, or whose execution raises, never fails the run: the
embedded `_execute_action` functions of the ReAct and OODA controllers are
total and return the error folded into a textual observation string — an
unknown name yields the `not found` message, an execution exception `e`
yields the error message carrying `e` — and capability lookup compares names
case-insensitively (lowercased on both sides). -/
theorem C8_capability_errors_folded {V : Type}
    (jsonDecode : String → Option (List (String × V))) (jsonDump : V → String)
    (vStr : String → V) (tools : List (MTool V)) :
    (∀ action rawName rawInput,
      findUseReact action.data = some (rawName, rawInput) →
      tools.find? (fun t => pyLower t.name == pyLower (pyStrip rawName)) = none →
      reactExecuteAction jsonDecode jsonDump vStr tools action =
        "Error: Tool '" ++ pyStrip rawName ++ "' not found. Available tools: " ++
          joinComma (tools.map (·.name))) ∧
    (∀ action rawName rawInput tool e,
      findUseReact action.data = some (rawName, rawInput) →
      tools.find? (fun t => pyLower t.name == pyLower (pyStrip rawName)) = some tool →
      tool.exec (reactParams jsonDecode vStr (pyStrip rawInput)) = .error e →
      reactExecuteAction jsonDecode jsonDump vStr tools action =
        "Error executing action: " ++ e) ∧
    (∀ nm, (tools.find? (fun t => pyLower t.name == pyLower nm)).isSome ↔
      ∃ t ∈ tools, pyLower t.name = pyLower nm) ∧
    (∀ decision rawName rawParam avail,
      oodaFindToolMatch decision.data = some (rawName, rawParam) →
      tools.find? (fun t => pyLower t.name == pyLower (pyStrip rawName)) = none →
      oodaExecuteAction jsonDump vStr tools avail decision =
        "Could not find tool '" ++ pyLower (pyStrip rawName) ++
          "'. Available tools: " ++ joinComma avail) ∧
    (∀ decision rawName rawParam tool e avail,
      oodaFindToolMatch decision.data = some (rawName, rawParam) →
      tools.find? (fun t => pyLower t.name == pyLower (pyStrip rawName)) = some tool →
      tool.exec [("query", vStr (pyStrip rawParam))] = .error e →
      oodaExecuteAction jsonDump vStr tools avail decision =
        "Error executing tool " ++ tool.name ++ ": " ++ e) := by
  refine ⟨?_, ?_, ?_, ?_, ?_⟩
  · intro action rawName rawInput hm hfind
    simp only [reactExecuteAction, hm, hfind]
  · intro action rawName rawInput tool e hm hfind hexec
    simp only [reactExecuteAction, hm, hfind, hexec]
  · intro nm
    rw [List.find?_isSome]
    constructor
    · rintro ⟨t, ht, hp⟩
      exact ⟨t, ht, by simpa using hp⟩
    · rintro ⟨t, ht, hp⟩
      exact ⟨t, ht, by simpa using hp⟩
  · intro decision rawName rawParam avail hm hfind
    simp only [oodaExecuteAction, hm, hfind]
  · intro decision rawName rawParam tool e avail hm hfind hexec
    simp only [oodaExecuteAction, hm, hfind, hexec]

/-- Witness for C8: a raising tool folds into the observation string, and an
unknown tool name yields the `Could not find` message. -/
theorem C8_capability_errors_folded_witness :
    reactExecuteAction (fun _ => (none : Option (List (String × String)))) id id
      [c8tool] "use calc: 2+2" = "Error executing action: boom" ∧
    oodaExecuteAction id id [c8tool] ["Calc"] "use missing: 5" =
      "Could not find tool 'missing'. Available tools: Calc" := by
  have h := C8_capability_errors_folded
    (fun _ => (none : Option (List (String × String)))) id id [c8tool]
  exact ⟨h.2.1 "use calc: 2+2" "calc" "2+2" c8tool "boom" rfl rfl rfl,
         h.2.2.2.1 "use missing: 5" "missing" "5" ["Calc"] rfl rfl⟩

/-! ## Claim C6 -/

/-- When no gateway response ever carries a nonempty `Final Answer` label,
`_get_next_step` returns a record with no final answer. -/
theorem reactNextStep_no_final {V : Type} (gen : Gen) (tools : List (MTool V))
    (name desc : String) (ctx : RContext)
    (hfa : ∀ s u, (reactParse (gen s u)).final_answer = "") :
    (reactNextStep gen tools name desc ctx).final_answer = none := by
  simp only [reactNextStep, hfa, ne_eq, not_true_eq_false, if_false]
  split
  · rfl
  · split <;> rfl

/-- One turn of the ReAct loop at budget 1 against a gateway that never
yields a final answer: the loop returns not-done with one iteration
counted. -/
theorem reactLoop_one {V : Type} (gen : Gen)
    (jd : String → Option (List (String × V))) (jdump : V → String)
    (vStr : String → V) (tools : List (MTool V)) (name desc : String)
    (ctx : RContext) (steps : List StepE) (iters : Nat)
    (hfa : ∀ s u, (reactParse (gen s u)).final_answer = "") :
    (reactLoop gen jd jdump vStr tools name desc 1 ctx steps iters).2.2 =
      (iters + 1, false, "") := by
  show (reactLoop gen jd jdump vStr tools name desc (0 + 1) ctx steps iters).2.2 = _
  simp only [reactLoop]
  rw [reactNextStep_no_final gen tools name desc ctx hfa]

/-- ReAct with iteration budget 1 and a gateway that never yields a final
answer: exhausted after one counted iteration, output prefixed by the
not-completed notice around one extra partial-answer gateway call. -/
theorem react_exhausted_one {V : Type} (gen : Gen)
    (jd : String → Option (List (String × V))) (jdump : V → String)
    (vStr : String → V) (tools : List (MTool V)) (agentId name desc task : String)
    (hfa : ∀ s u, (reactParse (gen s u)).final_answer = "") :
    ∃ u, (reactExecute gen jd jdump vStr tools agentId name desc 1 task).output =
        "Task not completed within maximum iterations. " ++
          gen "You are a helpful assistant. Based on the information gathered so far, provide a partial answer to the task." u ∧
      alookup (reactExecute gen jd jdump vStr tools agentId name desc 1 task).metadata
        "iterations" = some (MetaV.n 1) ∧
      (reactExecute gen jd jdump vStr tools agentId name desc 1 task).agent_id =
        agentId := by
  have hloop := reactLoop_one gen jd jdump vStr tools name desc
    { task := task, thoughts := [], actions := [], observations := [] } [] 0 hfa
  have hout : (reactExecute gen jd jdump vStr tools agentId name desc 1 task).output =
      "Task not completed within maximum iterations. " ++
        reactPartialAnswer gen (reactLoop gen jd jdump vStr tools name desc 1
          { task := task, thoughts := [], actions := [], observations := [] } [] 0).1 := by
    simp only [reactExecute, hloop]
    rfl
  have hmeta : alookup (reactExecute gen jd jdump vStr tools agentId name desc 1
      task).metadata "iterations" = some (MetaV.n 1) := by
    simp only [reactExecute, hloop]
    rfl
  exact ⟨_, by rw [hout]; rfl, hmeta, rfl⟩

/-- The completion flag of the shared OODA termination logic is exactly the
yes/complete signal on the stage response. -/
theorem oodaCheckCompletion_fst (r : String) :
    (oodaCheckCompletion r).1 = completionSignal r := by
  simp only [oodaCheckCompletion]
  split
  · split <;> rfl
  · rfl

/-- One turn of the OODA loop at budget 1 against a gateway that never
signals completion. -/
theorem oodaLoop_one {V : Type} (gen : Gen) (jdump : V → String)
    (vStr : String → V) (tools : List (MTool V)) (name desc : String)
    (ctx : OContext) (steps : List StepE) (iters : Nat)
    (hyc : ∀ s u, completionSignal (gen s u) = false) :
    (oodaLoop gen jdump vStr tools name desc 1 ctx steps iters).2.2 =
      (iters + 1, false, "") := by
  have hchk : ∀ c : OContext, (oodaCheckCompletionStage gen c).1 = false := by
    intro c
    simp only [oodaCheckCompletionStage]
    rw [oodaCheckCompletion_fst]
    exact hyc _ _
  show (oodaLoop gen jdump vStr tools name desc (0 + 1) ctx steps iters).2.2 = _
  simp only [oodaLoop, hchk]
  rfl

/-- OODA with iteration budget 1 and a gateway that never signals
completion: exhausted after one counted iteration, output prefixed by the
not-completed notice around one extra partial-answer gateway call. -/
theorem ooda_exhausted_one {V : Type} (gen : Gen) (jdump : V → String)
    (vStr : String → V) (tools : List (MTool V)) (agentId name desc task : String)
    (hyc : ∀ s u, completionSignal (gen s u) = false) :
    ∃ u, (oodaExecute gen jdump vStr tools agentId name desc 1 task).output =
        "Task not completed within maximum iterations. " ++
          gen "Based on the information gathered so far, provide a partial answer to the task." u ∧
      alookup (oodaExecute gen jdump vStr tools agentId name desc 1 task).metadata
        "iterations" = some (MetaV.n 1) ∧
      (oodaExecute gen jdump vStr tools agentId name desc 1 task).agent_id =
        agentId := by
  have hloop := oodaLoop_one gen jdump vStr tools name desc
    ⟨task, [], [], [], []⟩ [] 0 hyc
  have hout : (oodaExecute gen jdump vStr tools agentId name desc 1 task).output =
      "Task not completed within maximum iterations. " ++
        oodaPartialAnswer gen (oodaLoop gen jdump vStr tools name desc 1
          ⟨task, [], [], [], []⟩ [] 0).1 := by
    simp only [oodaExecute, hloop]
    rfl
  have hmeta : alookup (oodaExecute gen jdump vStr tools agentId name desc 1
      task).metadata "iterations" = some (MetaV.n 1) := by
    simp only [oodaExecute, hloop]
    rfl
  exact ⟨_, by rw [hout]; rfl, hmeta, rfl⟩

/-- The completion flag of the shared BDI termination logic is exactly the
yes/complete signal on the stage response. -/
theorem bdiCheckCompletion_fst (r : String) :
    (bdiCheckCompletion r).1 = completionSignal r := by
  simp only [bdiCheckCompletion]
  split
  · split <;> rfl
  · rfl

/-- One turn of the BDI loop at budget 1 against a gateway that never
signals completion. -/
theorem bdiLoop_one {V : Type} (gen : Gen) (jdump : V → String)
    (vStr : String → V) (tools : List (MTool V)) (name desc : String)
    (ctx : BContext) (steps : List StepE) (iters : Nat)
    (hyc : ∀ s u, completionSignal (gen s u) = false) :
    (bdiLoop gen jdump vStr tools name desc 1 ctx steps iters).2.2 =
      (iters + 1, false, "") := by
  have hchk : ∀ c : BContext, (bdiCheckCompletionStage gen c).1 = false := by
    intro c
    simp only [bdiCheckCompletionStage]
    rw [bdiCheckCompletion_fst]
    exact hyc _ _
  show (bdiLoop gen jdump vStr tools name desc (0 + 1) ctx steps iters).2.2 = _
  simp only [bdiLoop, hchk]
  rfl

/-- BDI with iteration budget 1 and a gateway that never signals
completion: exhausted after one counted iteration; the not-completed
notice is prefixed inside `_generate_partial_answer`. -/
theorem bdi_exhausted_one {V : Type} (gen : Gen) (jdump : V → String)
    (vStr : String → V) (tools : List (MTool V)) (agentId name desc task : String)
    (hyc : ∀ s u, completionSignal (gen s u) = false) :
    ∃ u, (bdiExecute gen jdump vStr tools agentId name desc 1 task).output =
        "Task not completed within maximum iterations. " ++
          gen "Provide a partial answer based on information gathered so far." u ∧
      alookup (bdiExecute gen jdump vStr tools agentId name desc 1 task).metadata
        "iterations" = some (MetaV.n 1) ∧
      (bdiExecute gen jdump vStr tools agentId name desc 1 task).agent_id =
        agentId := by
  have hloop := bdiLoop_one gen jdump vStr tools name desc
    ⟨task, [], [], [], [], []⟩ [] 0 hyc
  have hout : (bdiExecute gen jdump vStr tools agentId name desc 1 task).output =
      bdiPartialAnswer gen (bdiLoop gen jdump vStr tools name desc 1
        ⟨task, [], [], [], [], []⟩ [] 0).1 := by
    simp only [bdiExecute, hloop]
    rfl
  have hmeta : alookup (bdiExecute gen jdump vStr tools agentId name desc 1
      task).metadata "iterations" = some (MetaV.n 1) := by
    simp only [bdiExecute, hloop]
    rfl
  exact ⟨_, by rw [hout]; rfl, hmeta, rfl⟩

/-- C6 counterexample: the ReWOO controller has no iteration budget,
exhausted state or not-completed notice at all.  Against the constant
gateway `"nope"` — which never signals completion (no yes/complete signal,
no final answer) — `execute` still runs its single plan/work/solve pass and
returns the solver response verbatim: the metadata has no iteration count
and the output carries no not-completed marker. -/
theorem C6_budget_one_counterexample :
    completionSignal "nope" = false ∧
    (reactParse "nope").final_answer = "" ∧
    (rewooExecute (fun _ _ => "nope") [] "agid" "nm" "ds" 3 3 "chain_of_thought"
        "t").output = "nope" ∧
    alookup (rewooExecute (fun _ _ => "nope") [] "agid" "nm" "ds" 3 3
        "chain_of_thought" "t").metadata "iterations" = none ∧
    pyContains "Task not completed"
      (rewooExecute (fun _ _ => "nope") [] "agid" "nm" "ds" 3 3 "chain_of_thought"
        "t").output = false :=
  ⟨rfl, rfl, rfl, rfl, rfl⟩

/-- C6 (amended): for the iterative cycle controllers — ReAct, OODA and
BDI — an iteration budget of 1 against a gateway that never signals
completion (never a nonempty final answer for ReAct, never a yes/complete
signal for OODA and BDI) terminates exhausted after exactly one counted
iteration, with one extra partial-answer gateway call whose response is
prefixed by the explicit not-completed notice; the single-pass ReWOO
controller has no iteration budget or exhausted state at all (see the
counterexample). -/
theorem C6_budget_one_exhausted {V : Type} (gen : Gen)
    (jd : String → Option (List (String × V))) (jdump : V → String)
    (vStr : String → V) (tools : List (MTool V)) (agentId name desc task : String)
    (hfa : ∀ s u, (reactParse (gen s u)).final_answer = "")
    (hyc : ∀ s u, completionSignal (gen s u) = false) :
    (∃ u, (reactExecute gen jd jdump vStr tools agentId name desc 1 task).output =
        "Task not completed within maximum iterations. " ++
          gen "You are a helpful assistant. Based on the information gathered so far, provide a partial answer to the task." u ∧
      alookup (reactExecute gen jd jdump vStr tools agentId name desc 1 task).metadata
        "iterations" = some (MetaV.n 1) ∧
      (reactExecute gen jd jdump vStr tools agentId name desc 1 task).agent_id =
        agentId) ∧
    (∃ u, (oodaExecute gen jdump vStr tools agentId name desc 1 task).output =
        "Task not completed within maximum iterations. " ++
          gen "Based on the information gathered so far, provide a partial answer to the task." u ∧
      alookup (oodaExecute gen jdump vStr tools agentId name desc 1 task).metadata
        "iterations" = some (MetaV.n 1) ∧
      (oodaExecute gen jdump vStr tools agentId name desc 1 task).agent_id =
        agentId) ∧
    (∃ u, (bdiExecute gen jdump vStr tools agentId name desc 1 task).output =
        "Task not completed within maximum iterations. " ++
          gen "Provide a partial answer based on information gathered so far." u ∧
      alookup (bdiExecute gen jdump vStr tools agentId name desc 1 task).metadata
        "iterations" = some (MetaV.n 1) ∧
      (bdiExecute gen jdump vStr tools agentId name desc 1 task).agent_id =
        agentId) :=
  ⟨react_exhausted_one gen jd jdump vStr tools agentId name desc task hfa,
   ooda_exhausted_one gen jdump vStr tools agentId name desc task hyc,
   bdi_exhausted_one gen jdump vStr tools agentId name desc task hyc⟩

/-- Witness for C6: the constant gateway `"nope"` never signals completion,
and the ReAct, OODA and BDI controllers at budget 1 all record exactly one
iteration. -/
theorem C6_budget_one_exhausted_witness :
    alookup (reactExecute (fun _ _ => "nope")
        (fun _ => (none : Option (List (String × String)))) id id [] "agid" "nm"
        "ds" 1 "t").metadata "iterations" = some (MetaV.n 1) ∧
    alookup (oodaExecute (fun _ _ => "nope") id id ([] : List (MTool String))
        "agid" "nm" "ds" 1 "t").metadata "iterations" = some (MetaV.n 1) ∧
    alookup (bdiExecute (fun _ _ => "nope") id id ([] : List (MTool String))
        "agid" "nm" "ds" 1 "t").metadata "iterations" = some (MetaV.n 1) := by
  have h := C6_budget_one_exhausted (fun _ _ => "nope")
    (fun _ => (none : Option (List (String × String)))) id id [] "agid" "nm" "ds"
    "t" (fun _ _ => rfl) (fun _ _ => rfl)
  obtain ⟨⟨u1, h1a, h1b, h1c⟩, ⟨u2, h2a, h2b, h2c⟩, ⟨u3, h3a, h3b, h3c⟩⟩ := h
  exact ⟨h1b, h2b, h3b⟩

/-! ## Claim C9 -/

/-- C9 counterexample: with the default `format_output=True`, `run` returns
the formatted display string, not the Unit-of-Work Result record. -/
theorem C9_run_formats_by_default_counterexample :
    (runAgent (fun t => reactExecute (fun _ _ => "nope")
        (fun _ => (none : Option (List (String × String)))) id id [] "agid" "nm"
        "ds" 1 t) false true "task").isResult = false :=
  rfl

/-- C9 (amended): `run` returns the Unit-of-Work Result record only when the
caller passes `format_output=False`; with the default `format_output=True`
it returns the formatted display string.  With formatting disabled the
record is the architecture `execute` result verbatim, and ordinary
non-completion does not raise: a ReAct unit with budget 1 against a gateway
that never yields a final answer returns a record owned by the agent whose
output is the not-completed notice plus a best-effort partial answer and
whose metadata records the iteration count. -/
theorem C9_run_record {V : Type} (execF : String → AgentResultE)
    (verbose : Bool) (task : String) (gen : Gen)
    (jd : String → Option (List (String × V))) (jdump : V → String)
    (vStr : String → V) (tools : List (MTool V)) (agentId name desc : String)
    (hfa : ∀ s u, (reactParse (gen s u)).final_answer = "") :
    (runAgent execF verbose true task).isResult = false ∧
    runAgent execF verbose false task = .result (execF task) ∧
    (∃ r u, runAgent (fun t => reactExecute gen jd jdump vStr tools agentId name
          desc 1 t) verbose false task = .result r ∧
      r.agent_id = agentId ∧
      r.output = "Task not completed within maximum iterations. " ++
        gen "You are a helpful assistant. Based on the information gathered so far, provide a partial answer to the task." u ∧
      alookup r.metadata "iterations" = some (MetaV.n 1)) := by
  refine ⟨rfl, rfl, ?_⟩
  obtain ⟨u, h1, h2, h3⟩ :=
    react_exhausted_one gen jd jdump vStr tools agentId name desc task hfa
  exact ⟨reactExecute gen jd jdump vStr tools agentId name desc 1 task, u, rfl,
    h3, h1, h2⟩

/-- Witness for C9: with `format_output=False` the concrete ReAct unit's
`run` returns the `execute` result record verbatim. -/
theorem C9_run_record_witness :
    runAgent (fun t => reactExecute (fun _ _ => "nope")
        (fun _ => (none : Option (List (String × String)))) id id [] "agid" "nm"
        "ds" 1 t) false false "task" =
      RunOutput.result (reactExecute (fun _ _ => "nope")
        (fun _ => (none : Option (List (String × String)))) id id [] "agid" "nm"
        "ds" 1 "task") :=
  (C9_run_record (fun t => reactExecute (fun _ _ => "nope")
      (fun _ => (none : Option (List (String × String)))) id id [] "agid" "nm"
      "ds" 1 t) false "task" (fun _ _ => "nope")
    (fun _ => (none : Option (List (String × String)))) id id [] "agid" "nm" "ds"
    (fun _ _ => rfl)).2.1

end Harkaam
